import Mathlib

set_option maxHeartbeats 1000000

/-!
# Verification of the dice-roller evaluator

A shallow embedding of the roll20-style dice-notation evaluator (the
`DiceRoller` class and its `async_map`/`async_reduce` helpers).  JavaScript
numbers are modelled by exact rationals (`ℚ`); the injected random source is a
stream `ℕ → ℚ` of the floats it returns, consumed left to right through an
explicit cursor; fallible evaluation returns `Except String`.  The evaluator
is conceptually single threaded (the promise interleaving of `async_map` is
deterministic in the event-loop semantics), so sibling evaluation is embedded
as a left-to-right fold.
-/

namespace DiceRoller

/-- JavaScript `(x).toFixed()` followed by `parseInt`, on a nonnegative input:
round to the nearest integer, ties upward (ES `toFixed` picks the larger
candidate on a tie). -/
def jsRound (q : ℚ) : ℤ := (q + 1/2).floor

/-- JavaScript `Array.from({length: q})` length coercion: truncate toward zero
and clamp at zero (identical to `⌊q⌋` clamped at zero for the values that can
arise). -/
def jsLen (q : ℚ) : ℕ := q.floor.toNat

/-- JavaScript's stable `Array.prototype.sort` with a numeric comparator
`cmp`: `a` is placed before `b` when `cmp a b < 0`, after when `0 < cmp a b`,
and ties keep the original relative order.  Insertion sort with the reflexive
relation `cmp a b ≤ 0` computes exactly this stable result. -/
def jsSort {α : Type} (cmp : α → α → ℚ) (l : List α) : List α :=
  List.insertionSort (fun a b => cmp a b ≤ 0) l

/-- `successTest(mod, target, roll)` from the source: `">"` tests
`roll >= target`, `"<"` tests `roll <= target`, `"="` and any other string
test `roll == target`. -/
def successTest (cmp : String) (target roll : ℚ) : Bool :=
  if cmp = ">" then decide (target ≤ roll)
  else if cmp = "<" then decide (roll ≤ target)
  else decide (roll = target)

/-- The scalar fields shared by every result node (`RollBase` /
`DieRollBase` / `DieRoll`): the aggregate `value`, validity, success and
failure counters, the tri-state `success`, the position `order`, and the
die-outcome-leaf fields (`roll`, the face count `die`, `critical`, `matched`,
`drop`, `reroll`, `explode`).  Fields that a given variant does not use keep
their defaults, mirroring the absent (`undefined`) properties of the source
objects. -/
structure ResCore where
  ty : String
  value : ℚ
  valid : Bool := true
  successes : ℚ := 0
  failures : ℚ := 0
  success : Option Bool := none
  order : ℤ := 0
  roll : ℚ := 0
  die : ℚ := 0
  critical : Option String := none
  matched : Bool := false
  drop : Bool := false
  reroll : Bool := false
  explode : Bool := false
  ops : List String := []
  op : String := ""
  called : String := ""
  deriving Repr, DecidableEq

/-- A result tree.  `leaf` covers the childless variants (`number`, the
`fate` placeholder die, and the die-outcome leaves `roll` / `fateroll`);
`agg` covers the list-children aggregates (`grouproll`,
`diceexpressionroll`, `expressionroll`, `mathfunction`, `replacement`, the
latter two with a single child); `dieAgg` is the `die` result with its
`count` result, its face-die result and its trial list.  The `ty` field of
the core is the source's `type` discriminator. -/
inductive Res where
  | leaf (core : ResCore)
  | agg (core : ResCore) (children : List Res)
  | dieAgg (core : ResCore) (count : Res) (dieV : Res) (rolls : List Res)
  deriving Repr

/-- The shared scalar fields of a result node. -/
def Res.core : Res → ResCore
  | .leaf c => c
  | .agg c _ => c
  | .dieAgg c _ _ _ => c

/-- Update the shared scalar fields of a result node in place. -/
def Res.mapCore (f : ResCore → ResCore) : Res → Res
  | .leaf c => .leaf (f c)
  | .agg c ch => .agg (f c) ch
  | .dieAgg c n d rs => .dieAgg (f c) n d rs

def Res.value (r : Res) : ℚ := r.core.value
def Res.valid (r : Res) : Bool := r.core.valid
def Res.rollV (r : Res) : ℚ := r.core.roll
def Res.dieV (r : Res) : ℚ := r.core.die
def Res.orderV (r : Res) : ℤ := r.core.order
def Res.ty (r : Res) : String := r.core.ty

/-- The children of an aggregate (`rolls` for a die result, `dice`
otherwise, empty for leaves). -/
def Res.children : Res → List Res
  | .leaf _ => []
  | .agg _ ch => ch
  | .dieAgg _ _ _ rs => rs

/-- Sum of `value` over the entries whose `valid` flag is set — the
`reduce((sum, roll) => (!roll.valid ? sum : sum + roll.value), 0)` idiom
used by every aggregate. -/
def validSum (rs : List Res) : ℚ :=
  rs.foldl (fun sum r => if r.valid then sum + r.value else sum) 0

/-- `generateDiceRoll(die, order)` from the source, with the drawn float `q`
made explicit:
`roll = parseInt((randFunction() * die).toFixed(), 10) + 1`, i.e. the sample
times the face count, rounded to the nearest integer (ties up), plus one;
`critical` is `"success"` when the roll equals the face count, `"failure"`
when it equals 1. -/
def generateDiceRoll (die : ℚ) (order : ℤ) (q : ℚ) : Res :=
  let roll : ℚ := (jsRound (q * die) : ℤ) + 1
  .leaf { ty := "roll", value := roll, roll := roll, die := die, order := order,
          critical := if roll = die then some "success"
                      else if roll = 1 then some "failure" else none }

/-- `generateFateRoll(order)` from the source: `Math.floor(q * 3) - 1`. -/
def generateFateRoll (order : ℤ) (q : ℚ) : Res :=
  let roll : ℚ := ((q * 3).floor : ℤ) - 1
  .leaf { ty := "fateroll", value := roll, roll := roll, order := order }

/-- `reRoll(roll, order)` from the source: regenerate a trial of the same
kind, drawing the float `q`; any other entry type is a fatal error. -/
def reRollRes (r : Res) (order : ℤ) (q : ℚ) : Except String Res :=
  if r.ty = "roll" then .ok (generateDiceRoll r.dieV order q)
  else if r.ty = "fateroll" then .ok (generateFateRoll order q)
  else .error ("Cannot do a reroll of a " ++ r.ty ++ ".")

/-! ## Modifier pipeline cores

Each `get…Method` of the source first evaluates the modifier's expressions
(via the recursive evaluator) and then runs a loop over the pool.  The loops
are embedded here as standalone functions taking the pre-evaluated target
values; the recursive evaluator below wires them up.  They are generic in
the pool element `α` where the source is (`getKeepMethod` and friends serve
both per-die pools, looking up `roll.roll`, and group pools, looking up
`roll.value`). -/

/-- The marking loop shared by keep and drop:
`while (i < rolls.length && dropped < toDrop) { if (rolls[i].valid) {…} i++ }`.
`c` is the running `dropped` counter. -/
def markWalk {α : Type} (isValid : α → Bool) (mark : α → α) (toDrop : ℚ) :
    ℕ → List α → List α
  | _, [] => []
  | c, x :: xs =>
    if (c : ℚ) < toDrop then
      if isValid x then mark x :: markWalk isValid mark toDrop (c + 1) xs
      else x :: markWalk isValid mark toDrop c xs
    else x :: xs

/-- `getKeepMethod` after its count expression has been evaluated to
`exprVal`: sort by the lookup (ascending for keep-high, descending for
keep-low, so the entries to discard come first), then sort invalid entries to
the front, clamp the keep count, and mark the leading
`countOfValid − toKeep` still-valid entries invalid and dropped.  The result
is returned in this sorted order; only the per-die wrapper re-sorts by
`order`. -/
def keepCore {α : Type} (isValid : α → Bool) (mark : α → α) (lookup : α → ℚ)
    (hl : String) (exprVal : ℚ) (rolls : List α) : List α :=
  if rolls.length = 0 then rolls else
  let sorted := jsSort
    (fun a b => if hl = "l" then lookup b - lookup a else lookup a - lookup b) rolls
  let sorted2 := jsSort
    (fun a b => ((if isValid a then 1 else 0) : ℚ) - (if isValid b then 1 else 0)) sorted
  let toKeep : ℚ := max (min exprVal (sorted2.length : ℚ)) 0
  let toDrop : ℚ := (sorted2.countP isValid : ℚ) - toKeep
  markWalk isValid mark toDrop 0 sorted2

/-- `getDropMethod` after its count expression has been evaluated: sort so
the extreme to discard comes first (descending for drop-high, ascending
otherwise), clamp the drop count, and mark that many leading still-valid
entries. -/
def dropCore {α : Type} (isValid : α → Bool) (mark : α → α) (lookup : α → ℚ)
    (hl : String) (exprVal : ℚ) (rolls : List α) : List α :=
  let sorted := jsSort
    (fun a b => if hl = "h" then lookup b - lookup a else lookup a - lookup b) rolls
  let toDrop : ℚ := max (min exprVal (sorted.length : ℚ)) 0
  markWalk isValid mark toDrop 0 sorted

/-- `getSuccessMethod` / `getFailureMethod` after their expression has been
evaluated: bump the counter of every valid entry passing the test. -/
def successFailureCore {α : Type} (isValid : α → Bool) (lookup : α → ℚ)
    (bump : α → α) (cmp : String) (tv : ℚ) (rolls : List α) : List α :=
  rolls.map fun r =>
    if isValid r then (if successTest cmp tv (lookup r) then bump r else r) else r

/-- `getCritSuccessMethod` (with `crit := "success"`) and
`getCritFailureMethod` (`crit := "failure"`): only valid standard-die leaves
not already flagged successful are touched; a passing test sets the tag, a
failing test clears it if currently equal. -/
def critCore (crit : String) (cmp : String) (tv : ℚ) (rolls : List Res) : List Res :=
  rolls.map fun r =>
    if !r.valid then r
    else if r.ty ≠ "roll" then r
    else if r.core.success = some true then r
    else if successTest cmp tv r.rollV then
      r.mapCore (fun c => { c with critical := some crit })
    else if r.core.critical = some crit then
      r.mapCore (fun c => { c with critical := none })
    else r

/-- The loop-body target test of explode/compound/penetrate: an explicit
comparator and target value, or the implicit "equals the face count"
("equals 1" for fate leaves) default. -/
def explodeTargetTest (target : Option (String × ℚ)) (r : Res) : Bool :=
  match target with
  | some (cmp, tv) => successTest cmp tv r.rollV
  | none => successTest "=" (if r.ty = "fateroll" then 1 else r.dieV) r.rollV

/-- The degenerate-target probe of explode/compound: `targetMethod` applied
to the literal object `{ roll: x }`.  With an explicit target this is the
ordinary test on `x`; with the implicit default the probe object has no
`die` property, so the source compares `x == undefined`, which is false for
every number — the implicit-target guard can never fire. -/
def explodeProbe (target : Option (String × ℚ)) (x : ℚ) : Bool :=
  match target with
  | some (cmp, tv) => successTest cmp tv x
  | none => false

/-- One explode chain starting from entry `r` (already at position `pos`,
`order` set): while the target test passes and the per-entry cap (1000,
passed in as `fuel`) is not hit, flag the entry, draw a fresh trial of the
same kind right after it, and continue on the new trial.  Returns the chain,
the position of its last entry, and the new cursor. -/
def explodeChain (src : ℕ → ℚ) (tm : Res → Bool) :
    ℕ → Res → ℤ → ℕ → Except String (List Res × ℤ × ℕ)
  | 0, r, pos, k => .ok ([r], pos, k)
  | fuel + 1, r, pos, k =>
    if tm r then
      let r' := r.mapCore (fun c => { c with explode := true })
      match reRollRes r' (pos + 1) (src k) with
      | .error e => .error e
      | .ok newRoll =>
        match explodeChain src tm fuel newRoll (pos + 1) (k + 1) with
        | .error e => .error e
        | .ok (chain, pos', k') => .ok (r' :: chain, pos', k')
    else .ok ([r], pos, k)

/-- The outer loop of `getExplodeMethod`: each original entry has its `order`
set to its current index and is expanded into its explode chain. -/
def explodeWalk (src : ℕ → ℚ) (tm : Res → Bool) :
    List Res → ℤ → ℕ → Except String (List Res × ℕ)
  | [], _, k => .ok ([], k)
  | r :: rest, pos, k =>
    let r0 := r.mapCore (fun c => { c with order := pos })
    match explodeChain src tm 1000 r0 pos k with
    | .error e => .error e
    | .ok (chain, pos', k') =>
      match explodeWalk src tm rest (pos' + 1) k' with
      | .error e => .error e
      | .ok (out, k'') => .ok (chain ++ out, k'')

/-- `getExplodeMethod` applied to a pool: the degenerate-target guard reads
`rolls[0]` (a TypeError on an empty pool), throws `Invalid reroll target`
when the first entry is a standard-die leaf and both probes pass, and
otherwise runs the chain loop. -/
def explodeMethodCore (src : ℕ → ℚ) (target : Option (String × ℚ))
    (rolls : List Res) (k : ℕ) : Except String (List Res × ℕ) :=
  match rolls with
  | [] => .error "TypeError: rolls[0] is undefined"
  | r :: _ =>
    if r.ty = "roll" && explodeProbe target 1 && explodeProbe target r.dieV then
      .error "Invalid reroll target"
    else explodeWalk src (explodeTargetTest target) rolls 0 k

/-- One compound chain: accumulate the face values of freshly drawn trials
into `acc` while the current trial passes the test (cap 1000); the drawn
trials are discarded afterwards.  Returns the accumulated value and the new
cursor. -/
def compoundChain (src : ℕ → ℚ) (tm : Res → Bool) :
    ℕ → Res → ℚ → ℤ → ℕ → Except String (ℚ × ℕ)
  | 0, _, acc, _, k => .ok (acc, k)
  | fuel + 1, r, acc, pos, k =>
    if tm r then
      match reRollRes r pos (src k) with
      | .error e => .error e
      | .ok nr => compoundChain src tm fuel nr (acc + nr.rollV) pos (k + 1)
    else .ok (acc, k)

/-- The outer loop of `getCompoundMethod`: every entry ends with
`value = roll = rollValue` (the accumulated total, which is just its own
`roll` when it never matched), and its `explode` flag set exactly when the
first loop iteration ran.  No entry is inserted or removed. -/
def compoundWalk (src : ℕ → ℚ) (tm : Res → Bool) :
    List Res → ℤ → ℕ → Except String (List Res × ℕ)
  | [], _, k => .ok ([], k)
  | r :: rest, pos, k =>
    match compoundChain src tm 1000 r r.rollV (pos + 1) k with
    | .error e => .error e
    | .ok (acc, k') =>
      let r' := if tm r then r.mapCore (fun c => { c with explode := true }) else r
      let r'' := r'.mapCore (fun c => { c with value := acc, roll := acc })
      match compoundWalk src tm rest (pos + 1) k' with
      | .error e => .error e
      | .ok (out, k'') => .ok (r'' :: out, k'')

/-- `getCompoundMethod` applied to a pool — the same guard as explode,
followed by the in-place accumulation loop. -/
def compoundMethodCore (src : ℕ → ℚ) (target : Option (String × ℚ))
    (rolls : List Res) (k : ℕ) : Except String (List Res × ℕ) :=
  match rolls with
  | [] => .error "TypeError: rolls[0] is undefined"
  | r :: _ =>
    if r.ty = "roll" && explodeProbe target 1 && explodeProbe target r.dieV then
      .error "Invalid reroll target"
    else compoundWalk src (explodeTargetTest target) rolls 0 k

/-- One penetrate chain: like explode, but each freshly drawn trial has its
`value` (not its `roll`) reduced by one before insertion. -/
def penetrateChain (src : ℕ → ℚ) (tm : Res → Bool) :
    ℕ → Res → ℤ → ℕ → Except String (List Res × ℤ × ℕ)
  | 0, r, pos, k => .ok ([r], pos, k)
  | fuel + 1, r, pos, k =>
    if tm r then
      let r' := r.mapCore (fun c => { c with explode := true })
      match reRollRes r' (pos + 1) (src k) with
      | .error e => .error e
      | .ok nr0 =>
        let nr := nr0.mapCore (fun c => { c with value := c.value - 1 })
        match penetrateChain src tm fuel nr (pos + 1) (k + 1) with
        | .error e => .error e
        | .ok (chain, pos', k') => .ok (r' :: chain, pos', k')
    else .ok ([r], pos, k)

/-- The outer loop of `getPenetrateMethod` (orders reassigned as in
explode). -/
def penetrateWalk (src : ℕ → ℚ) (tm : Res → Bool) :
    List Res → ℤ → ℕ → Except String (List Res × ℕ)
  | [], _, k => .ok ([], k)
  | r :: rest, pos, k =>
    let r0 := r.mapCore (fun c => { c with order := pos })
    match penetrateChain src tm 1000 r0 pos k with
    | .error e => .error e
    | .ok (chain, pos', k') =>
      match penetrateWalk src tm rest (pos' + 1) k' with
      | .error e => .error e
      | .ok (out, k'') => .ok (chain ++ out, k'')

/-- `getPenetrateMethod` applied to a pool.  Its guard differs from
explode's: it fires only when the target is explicit, the first entry is a
standard-die leaf whose actual `roll` passes the test, and the test also
passes on 1.  With the implicit default target the guard (and the
`rolls[0]` access inside it) is skipped entirely. -/
def penetrateMethodCore (src : ℕ → ℚ) (target : Option (String × ℚ))
    (rolls : List Res) (k : ℕ) : Except String (List Res × ℕ) :=
  match target with
  | some (cmp, tv) =>
    match rolls with
    | [] => .error "TypeError: rolls[0] is undefined"
    | r :: _ =>
      if r.ty = "roll" && successTest cmp tv r.rollV && successTest cmp tv 1 then
        .error "Invalid reroll target"
      else penetrateWalk src (explodeTargetTest target) rolls 0 k
  | none => penetrateWalk src (explodeTargetTest target) rolls 0 k

/-- The target test of reroll / reroll-once, applied to a face value:
explicit comparator and value, or the implicit "equals 1" default. -/
def rerollTargetTest (target : Option (String × ℚ)) (x : ℚ) : Bool :=
  match target with
  | some (cmp, tv) => successTest cmp tv x
  | none => successTest "=" 1 x

/-- One plain-reroll chain: while the current entry's face value matches,
mark it `reroll := true, valid := false` and draw a replacement right after
it, continuing on the replacement.  The source loop is unbounded; `fuel`
models the potential divergence — running out is a distinguished error, and
any `fuel` larger than the match run leaves the result unchanged. -/
def rerollChain (src : ℕ → ℚ) (tm : ℚ → Bool) :
    ℕ → Res → ℤ → ℕ → Except String (List Res × ℤ × ℕ)
  | fuel, r, pos, k =>
    if tm r.rollV then
      match fuel with
      | 0 => .error "reroll iteration budget exhausted"
      | fuel' + 1 =>
        let r' := r.mapCore (fun c => { c with reroll := true, valid := false })
        match reRollRes r' (pos + 1) (src k) with
        | .error e => .error e
        | .ok nr =>
          match rerollChain src tm fuel' nr (pos + 1) (k + 1) with
          | .error e => .error e
          | .ok (chain, pos', k') => .ok (r' :: chain, pos', k')
    else .ok ([r], pos, k)

/-- The outer loop of `getReRollMethod` (original orders are left alone;
replacements get their insertion index as `order`). -/
def rerollWalk (src : ℕ → ℚ) (tm : ℚ → Bool) (fuel : ℕ) :
    List Res → ℤ → ℕ → Except String (List Res × ℕ)
  | [], _, k => .ok ([], k)
  | r :: rest, pos, k =>
    match rerollChain src tm fuel r pos k with
    | .error e => .error e
    | .ok (chain, pos', k') =>
      match rerollWalk src tm fuel rest (pos' + 1) k' with
      | .error e => .error e
      | .ok (out, k'') => .ok (chain ++ out, k'')

/-- `getReRollMethod` applied to a pool: the guard reads `rolls[0]` and
throws when the first entry is a standard-die leaf and the test passes on
both 1 and its face count (so the implicit "equals 1" target is degenerate
exactly on one-faced dice). -/
def rerollMethodCore (src : ℕ → ℚ) (target : Option (String × ℚ)) (fuel : ℕ)
    (rolls : List Res) (k : ℕ) : Except String (List Res × ℕ) :=
  match rolls with
  | [] => .error "TypeError: rolls[0] is undefined"
  | r :: _ =>
    let tm := rerollTargetTest target
    if r.ty = "roll" && tm 1 && tm r.dieV then
      .error "Invalid reroll target"
    else rerollWalk src tm fuel rolls 0 k

/-- The outer loop of `getReRollOnceMethod`: a matching entry is marked and
replaced exactly once; the replacement is skipped over, never re-tested. -/
def rerollOnceWalk (src : ℕ → ℚ) (tm : ℚ → Bool) :
    List Res → ℤ → ℕ → Except String (List Res × ℕ)
  | [], _, k => .ok ([], k)
  | r :: rest, pos, k =>
    if tm r.rollV then
      let r' := r.mapCore (fun c => { c with reroll := true, valid := false })
      match reRollRes r' (pos + 1) (src k) with
      | .error e => .error e
      | .ok nr =>
        match rerollOnceWalk src tm rest (pos + 2) (k + 1) with
        | .error e => .error e
        | .ok (out, k') => .ok (r' :: nr :: out, k')
    else
      match rerollOnceWalk src tm rest (pos + 1) k with
      | .error e => .error e
      | .ok (out, k') => .ok (r :: out, k')

/-- `getReRollOnceMethod` applied to a pool — the same guard as plain
reroll, then the single-replacement pass. -/
def rerollOnceMethodCore (src : ℕ → ℚ) (target : Option (String × ℚ))
    (rolls : List Res) (k : ℕ) : Except String (List Res × ℕ) :=
  match rolls with
  | [] => .error "TypeError: rolls[0] is undefined"
  | r :: _ =>
    let tm := rerollTargetTest target
    if r.ty = "roll" && tm 1 && tm r.dieV then
      .error "Invalid reroll target"
    else rerollOnceWalk src tm rolls 0 k

/-- `applySort`: stable-sort the trials by raw face value and renumber
`order` with the post-sort position. -/
def applySortCore (asc : Bool) (rolls : List Res) : List Res :=
  (jsSort (fun a b => if asc then a.rollV - b.rollV else b.rollV - a.rollV) rolls).enum.map
    fun p => p.2.mapCore (fun c => { c with order := (p.1 : ℤ) })

/-- The `counts` map of the match stage: a JavaScript `Map` keyed by face
value, insertion ordered, embedded as an association list whose keys are
distinct by construction. -/
def assocBump (l : List (ℚ × ℚ)) (v : ℚ) : List (ℚ × ℚ) :=
  match l with
  | [] => [(v, 1)]
  | (a, c) :: rest => if a = v then (a, c + 1) :: rest else (a, c) :: assocBump rest v

/-- The match-stage `counts` built from the trial pool. -/
def matchCounts (rolls : List Res) : List (ℚ × ℚ) :=
  rolls.foldl (fun m r => assocBump m r.rollV) []

/-! ## Syntax trees -/

mutual
/-- The parsed syntax tree (`RootType` and friends).  `die` carries the
count sub-node, the face sub-node (`none` for a fate die), the optional
modifier and target lists, the optional match spec and the optional sort
direction.  Display labels are presentation-only and not modelled. -/
inductive AST where
  | num (v : ℚ)
  | die (count : AST) (sides : Option AST) (mods : Option (List ModT))
        (targets : Option (List ModT)) (mtch : Option MatchSpec)
        (srt : Option Bool)
  | diceExpr (head : AST) (ops : List (String × AST))
  | mathExpr (head : AST) (ops : List (String × AST))
  | group (members : List AST) (mods : Option (List ModT))
  | mathFunc (op : String) (expr : AST)
  | repl (called : String) (expr : AST)
  | inline (expr : AST)

/-- A modifier spec (the `type` discriminators of `ParsedType` handled by
`getModMethod` / `getGroupModMethod`). -/
inductive ModT where
  | keep (hl : String) (expr : AST)
  | dropM (hl : String) (expr : AST)
  | succM (cmp : String) (expr : AST)
  | failM (cmp : String) (expr : AST)
  | critM (cmp : String) (expr : AST)
  | critfailM (cmp : String) (expr : AST)
  | explodeM (target : Option (String × AST))
  | compoundM (target : Option (String × AST))
  | penetrateM (target : Option (String × AST))
  | rerollM (target : Option (String × AST))
  | rerollOnceM (target : Option (String × AST))

/-- A match spec: the minimum repeat count (read directly off the parsed
node as a number), the count-override flag, and the optional
comparator+expression filter. -/
inductive MatchSpec where
  | mk (minVal : ℚ) (countFlag : Bool) (mfil : Option (String × AST))
end

/-- Whether a modifier is a success/failure target (the group-level
`hasTarget` test). -/
def ModT.isTargetMod : ModT → Bool
  | .succM _ _ | .failM _ _ => true
  | _ => false

/-- The source `type` string of a modifier (used in error messages). -/
def ModT.tyName : ModT → String
  | .keep _ _ => "keep"
  | .dropM _ _ => "drop"
  | .succM _ _ => "success"
  | .failM _ _ => "failure"
  | .critM _ _ => "crit"
  | .critfailM _ _ => "critfail"
  | .explodeM _ => "explode"
  | .compoundM _ => "compound"
  | .penetrateM _ => "penetrate"
  | .rerollM _ => "reroll"
  | .rerollOnceM _ => "rerollOnce"

/-! ## Arithmetic of `rollExpression` and `rollFunction`

JavaScript number arithmetic is modelled by exact rationals: `+ - *` are
exact, `/` is exact rational division (with the Lean convention `q/0 = 0`
where JavaScript produces an infinity), `%` is the JavaScript remainder
(truncated quotient), and `**` is modelled for integer exponents (a
fractional exponent produces an irrational float, outside the rational
model, and is mapped to 0).  The claims below only exercise the exact
fragment. -/

/-- Truncation toward zero. -/
def ratTrunc (q : ℚ) : ℤ := if 0 ≤ q then q.floor else -((-q).floor)

/-- The JavaScript `%` remainder. -/
def jsMod (a b : ℚ) : ℚ := a - b * (ratTrunc (a / b) : ℚ)

/-- The JavaScript `**` power on the integer-exponent fragment. -/
def jsPow (a b : ℚ) : ℚ := if b.den = 1 then a ^ b.num else 0

/-- One step of the `rollExpression` accumulator switch. -/
def applyMathOp (acc : ℚ) (op : String) (v : ℚ) : ℚ :=
  if op = "+" then acc + v
  else if op = "-" then acc - v
  else if op = "*" then acc * v
  else if op = "/" then acc / v
  else if op = "%" then jsMod acc v
  else if op = "**" then jsPow acc v
  else acc

/-! ## Trial generation and die-level bookkeeping -/

/-- The `Array.from({length: n}, (_, i) => generateDiceRoll(die.value, i))`
trial batch, drawing the floats at cursors `k, k+1, …`. -/
def genStdRolls (src : ℕ → ℚ) (die : ℚ) (n : ℕ) (k : ℕ) : List Res :=
  (List.range n).map fun (i : ℕ) => generateDiceRoll die (Int.ofNat i) (src (k + i))

/-- The fate-die trial batch. -/
def genFateRolls (src : ℕ → ℚ) (n : ℕ) (k : ℕ) : List Res :=
  (List.range n).map fun (i : ℕ) => generateFateRoll (Int.ofNat i) (src (k + i))

def markDropRes (r : Res) : Res :=
  r.mapCore fun c => { c with valid := false, drop := true }
def bumpSuccRes (r : Res) : Res :=
  r.mapCore fun c => { c with successes := c.successes + 1 }
def bumpFailRes (r : Res) : Res :=
  r.mapCore fun c => { c with failures := c.failures + 1 }

def markDropTag (p : ℕ × Res) : ℕ × Res := (p.1, markDropRes p.2)
def bumpSuccTag (p : ℕ × Res) : ℕ × Res := (p.1, bumpSuccRes p.2)
def bumpFailTag (p : ℕ × Res) : ℕ × Res := (p.1, bumpFailRes p.2)

/-- The post-target pass of `rollDie`: accumulate the die-level `successes`
and `failures` over every entry, and rewrite each entry's `value` to its own
`successes − failures` with `success = value > 0`. -/
def applyTargetsFinish (rolls : List Res) : List Res × ℚ × ℚ :=
  ( rolls.map (fun r =>
      r.mapCore fun c =>
        { c with value := c.successes - c.failures,
                 success := some (decide (0 < c.successes - c.failures)) }),
    (rolls.map fun r => r.core.successes).sum,
    (rolls.map fun r => r.core.failures).sum )

/-- The group-level `hasTarget` pass of `rollGroup` over the (tagged) pool,
returning the rewritten pool and the accumulated successes/failures. -/
def groupModsFinish (hasTarget : Bool) (pool : List (ℕ × Res)) :
    List (ℕ × Res) × ℚ × ℚ :=
  if hasTarget then
    ( pool.map (fun p =>
        (p.1, p.2.mapCore fun c =>
          { c with value := c.successes - c.failures,
                   success := some (decide (0 < c.successes - c.failures)) })),
      (pool.map fun p => p.2.core.successes).sum,
      (pool.map fun p => p.2.core.failures).sum )
  else (pool, 0, 0)

/-! ## Group flattening (single die / dice-expression member)

The flattened pool is tagged with its position in the concatenation so that
the in-place mutations the source performs through shared object references
can be written back into the member tree afterwards. -/

/-- One child's contribution to the flattened pool:
`die.type === "die" ? die.rolls : die.dice`.  Variants with neither a
`rolls` nor a `dice` property make the source spread `undefined`, a
TypeError. -/
def flattenChild (d : Res) : Except String (List Res) :=
  if d.ty = "die" then .ok d.children
  else if d.ty = "grouproll" || d.ty = "diceexpressionroll" || d.ty = "expressionroll" then
    .ok d.children
  else .error "TypeError: dice is undefined"

/-- The flattened pool of a single group member: a die result contributes
its own trial list; a dice-expression result contributes, for each
non-number child in order, that child's immediate sub-entries. -/
def flattenPool (r : Res) : Except String (List Res) :=
  if r.ty = "die" then .ok r.children
  else (r.children.filter fun d => d.ty ≠ "number").foldlM
    (fun arr d => (flattenChild d).map (arr ++ ·)) []

/-- Replace the children of an aggregate. -/
def Res.setChildren (r : Res) (ch : List Res) : Res :=
  match r with
  | .leaf c => .leaf c
  | .agg c _ => .agg c ch
  | .dieAgg c n d _ => .dieAgg c n d ch

/-- Find the (mutated) pool entry carrying tag `tag`, defaulting to the
original object. -/
def lookupTag (pool : List (ℕ × Res)) (tag : ℕ) (orig : Res) : Res :=
  match pool.find? (fun p => p.1 = tag) with
  | some p => p.2
  | none => orig

/-- Write the pool mutations back into one child of a dice-expression
member: number children were skipped by the flatten and consume no tags;
every other child has each of its sub-entries replaced by the mutated object
with the corresponding tag (its own array was never reordered — only the
fresh pool array was sorted). -/
def writeBackChild (pool : List (ℕ × Res)) (start : ℕ) (d : Res) : Res × ℕ :=
  if d.ty = "number" then (d, start)
  else
    (d.setChildren (d.children.enum.map fun p => lookupTag pool (start + p.1) p.2),
     start + d.children.length)

/-- Write the modded pool back into the single flattened member.  A die
member's `rolls` array is the pool array itself, so it ends up in the
pool's (sorted) order; a dice-expression member keeps its structure and
positions and only receives the per-object mutations. -/
def writeBack (member : Res) (pool : List (ℕ × Res)) : Res :=
  if member.ty = "die" then member.setChildren (pool.map Prod.snd)
  else
    member.setChildren
      (member.children.foldl
        (fun acc d =>
          let s := writeBackChild pool acc.2 d
          (acc.1 ++ [s.1], s.2))
        (([], 0) : List Res × ℕ)).1

/-! ## The recursive evaluator

`Ctx` carries the constructor-injected configuration: the random source as
the stream of floats it returns, the replacement resolver (modelled as a
pure function of the name — with a pure resolver the lazily-populated
per-name cache is observationally transparent and is not modelled), and the
maximum roll count.  `rerollFuel` is the iteration budget given to the
(genuinely unbounded) plain-reroll loop; exhausting it is a distinguished
error and any sufficiently large budget gives the loop's limit behaviour.
The cursor `k : ℕ` indexes the next float to be drawn. -/

/-- The size of an `Option` is positive (used by the termination measures
below). -/
theorem optionSizeOfPos {A : Type} [SizeOf A] (o : Option A) : 0 < sizeOf o := by
  cases o <;> simp +arith

structure Ctx where
  rand : ℕ → ℚ
  repl : String → ℚ → ℚ
  maxRollCount : ℚ := 1000
  rerollFuel : ℕ := 1000000

mutual

/-- `rollType`: the dispatcher over syntax-tree variants. -/
def rollType (ctx : Ctx) (t : AST) (k : ℕ) : Except String (Res × ℕ) :=
  match t with
  | .num v =>
    .ok (.leaf { ty := "number", value := v, success := none, successes := 0,
                 failures := 0, valid := true, order := 0 }, k)
  | .die c s m tg mt so => rollDie ctx c s m tg mt so k
  | .diceExpr h ops => rollDiceExpr ctx h ops k
  | .mathExpr h ops => rollExpression ctx h ops k
  | .group ms mods => rollGroup ctx ms mods k
  | .mathFunc op e => rollFunction ctx op e k
  | .repl name e => doReplacement ctx name e k
  | .inline e => rollType ctx e k

termination_by (sizeOf t, 1)

/-- `rollDiceExpr`: evaluate the head, then fold the `(+|-)` tails left to
right, recording every child and operator. -/
def rollDiceExpr (ctx : Ctx) (head : AST) (ops : List (String × AST)) (k : ℕ) :
    Except String (Res × ℕ) :=
  match rollType ctx head k with
  | .error e => .error e
  | .ok (headRoll, k1) =>
    match diceExprFold ctx ops headRoll.value 0 k1 with
    | .error e => .error e
    | .ok (value, tails, opsS, k2) =>
      .ok (.agg { ty := "diceexpressionroll", value := value, success := none,
                  successes := 0, failures := 0, valid := true, order := 0,
                  ops := opsS } (headRoll :: tails), k2)

termination_by (sizeOf (AST.diceExpr head ops), 0)

/-- The `async_reduce` of `rollDiceExpr`: each tail result gets its ops-list
index as `order`; only `+` and `-` move the accumulator. -/
def diceExprFold (ctx : Ctx) (ops : List (String × AST)) (acc : ℚ) (idx : ℕ)
    (k : ℕ) : Except String (ℚ × List Res × List String × ℕ) :=
  match ops with
  | [] => .ok (acc, [], [], k)
  | (op, tail) :: rest =>
    match rollType ctx tail k with
    | .error e => .error e
    | .ok (tr0, k1) =>
      let tr := tr0.mapCore fun c => { c with order := (idx : ℤ) }
      let acc' := if op = "+" then acc + tr.value
                  else if op = "-" then acc - tr.value else acc
      match diceExprFold ctx rest acc' (idx + 1) k1 with
      | .error e => .error e
      | .ok (v, trs, opsS, k2) => .ok (v, tr :: trs, op :: opsS, k2)

termination_by (sizeOf ops, 1)

/-- `rollExpression`: the math-expression fold over `+ - * / % **`. -/
def rollExpression (ctx : Ctx) (head : AST) (ops : List (String × AST)) (k : ℕ) :
    Except String (Res × ℕ) :=
  match rollType ctx head k with
  | .error e => .error e
  | .ok (headRoll, k1) =>
    match mathExprFold ctx ops headRoll.value k1 with
    | .error e => .error e
    | .ok (value, tails, opsS, k2) =>
      .ok (.agg { ty := "expressionroll", value := value, success := none,
                  successes := 0, failures := 0, valid := true, order := 0,
                  ops := opsS } (headRoll :: tails), k2)

termination_by (sizeOf (AST.mathExpr head ops), 0)

/-- The `async_reduce` of `rollExpression` (no order assignment). -/
def mathExprFold (ctx : Ctx) (ops : List (String × AST)) (acc : ℚ) (k : ℕ) :
    Except String (ℚ × List Res × List String × ℕ) :=
  match ops with
  | [] => .ok (acc, [], [], k)
  | (op, tail) :: rest =>
    match rollType ctx tail k with
    | .error e => .error e
    | .ok (tr, k1) =>
      match mathExprFold ctx rest (applyMathOp acc op tr.value) k1 with
      | .error e => .error e
      | .ok (v, trs, opsS, k2) => .ok (v, tr :: trs, op :: opsS, k2)

termination_by (sizeOf ops, 1)

/-- `rollFunction`: floor / ceil / round / abs of the child's value
(`Math.round` rounds half toward +∞, like `jsRound`). -/
def rollFunction (ctx : Ctx) (op : String) (e : AST) (k : ℕ) :
    Except String (Res × ℕ) :=
  match rollType ctx e k with
  | .error err => .error err
  | .ok (expr, k1) =>
    let value : ℚ :=
      if op = "floor" then (expr.value.floor : ℤ)
      else if op = "ceil" then (expr.value.ceil : ℤ)
      else if op = "round" then (jsRound expr.value : ℤ)
      else if op = "abs" then |expr.value|
      else expr.value
    .ok (.agg { ty := "mathfunction", value := value, success := none,
                successes := 0, failures := 0, valid := true, order := 0,
                op := op } [expr], k1)

termination_by (sizeOf (AST.mathFunc op e), 0)

/-- `doReplacement`: evaluate the child, apply the (resolved) named
transform to its value.  The result is unconditionally
`valid := true, success := true`. -/
def doReplacement (ctx : Ctx) (name : String) (e : AST) (k : ℕ) :
    Except String (Res × ℕ) :=
  match rollType ctx e k with
  | .error err => .error err
  | .ok (roll, k1) =>
    .ok (.agg { ty := "replacement", value := ctx.repl name roll.value,
                success := some true, successes := 0, failures := 0,
                valid := true, order := 0, op := "custom", called := name }
          [roll], k1)

termination_by (sizeOf (AST.repl name e), 0)

/-- `rollDie`: evaluate the count, enforce the roll-count ceiling, generate
the trials (fate or standard), fold the modifier list, fold the target list
(then rewrite per-entry values to `successes − failures`), run the match
stage, sort, and aggregate the valid values. -/
def rollDie (ctx : Ctx) (countAst : AST) (sides : Option AST)
    (mods : Option (List ModT)) (targets : Option (List ModT))
    (mtch : Option MatchSpec) (srt : Option Bool) (k : ℕ) :
    Except String (Res × ℕ) :=
  (rollType ctx countAst k).bind (fun ck =>
    if ctx.maxRollCount < ck.1.value then
      .error "Entered number of dice too large."
    else
      let n := jsLen ck.1.value
      (show Except String (Res × List Res × ℕ) from
        match sides with
        | none =>
          .ok ((Res.leaf { ty := "fate", value := 0, valid := false,
                           success := none, successes := 0, failures := 0,
                           order := 0 }),
               genFateRolls ctx.rand n ck.2, ck.2 + n)
        | some sAst =>
          (rollType ctx sAst ck.2).bind (fun dk =>
            .ok (dk.1, genStdRolls ctx.rand dk.1.value n dk.2, dk.2 + n))).bind
       (fun gen =>
        (show Except String (List Res × ℕ) from
          match mods with
          | none => .ok (gen.2.1, gen.2.2)
          | some ms => applyMods ctx ms gen.2.1 gen.2.2).bind
         (fun md =>
          (show Except String ((List Res × ℚ × ℚ) × ℕ) from
            match targets with
            | none => .ok ((md.1, 0, 0), md.2)
            | some ts =>
              (applyMods ctx ts md.1 md.2).bind (fun r2 =>
                .ok (applyTargetsFinish r2.1, r2.2))).bind
           (fun tg =>
            (show Except String ((List Res × Bool × ℕ) × ℕ) from
              match mtch with
              | none => .ok ((tg.1.1, false, 0), tg.2)
              | some (.mk minVal countFlag mfil) =>
                let cands := (matchCounts tg.1.1).filter fun p =>
                  decide (minVal ≤ p.2)
                match (show Except String (List ℚ × ℕ) from
                       match mfil with
                       | some (cmp, fe) => matchFilterFold ctx cmp fe cands tg.2
                       | none => .ok (cands.map Prod.fst, tg.2)) with
                | .error e => .error e
                | .ok ml =>
                  .ok ((tg.1.1.map fun r =>
                         if decide (r.rollV ∈ ml.1) then
                           r.mapCore (fun c => { c with matched := true })
                         else r,
                        countFlag, ml.1.length), ml.2)).bind
             (fun mt =>
              let rolls4 := match srt with
                            | none => mt.1.1
                            | some asc => applySortCore asc mt.1.1
              let value := validSum rolls4
              .ok (.dieAgg
                     { ty := "die",
                       value := if mt.1.2.1 then ((mt.1.2.2 : ℕ) : ℚ) else value,
                       success := if targets.isSome then some (decide (0 < value))
                                  else none,
                       successes := tg.1.2.1, failures := tg.1.2.2, valid := true,
                       order := 0, matched := mt.1.2.1 }
                     ck.1 gen.1 rolls4, mt.2))))))

termination_by (sizeOf (AST.die countAst sides mods targets mtch srt), 0)

/-- The `async_filter` of the match stage: the filter expression is
re-evaluated (drawing afresh) for every candidate group, in order. -/
def matchFilterFold (ctx : Ctx) (cmp : String) (fe : AST)
    (cands : List (ℚ × ℚ)) (k : ℕ) : Except String (List ℚ × ℕ) :=
  match cands with
  | [] => .ok ([], k)
  | (v, _) :: rest =>
    match rollType ctx fe k with
    | .error e => .error e
    | .ok (er, k1) =>
      match matchFilterFold ctx cmp fe rest k1 with
      | .error e => .error e
      | .ok (vs, k2) =>
        .ok (if successTest cmp er.value v then v :: vs else vs, k2)

termination_by (sizeOf fe, cands.length + 2)

/-- The per-die modifier fold (`async_reduce` over `input.mods`). -/
def applyMods (ctx : Ctx) (mods : List ModT) (rolls : List Res) (k : ℕ) :
    Except String (List Res × ℕ) :=
  match mods with
  | [] => .ok (rolls, k)
  | m :: rest =>
    match applyMod ctx m rolls k with
    | .error e => .error e
    | .ok (rolls', k1) => applyMods ctx rest rolls' k1

termination_by (sizeOf mods, 1)

/-- `applyMod` / `getModMethod`: dispatch one per-die modifier, evaluating
its expressions first.  Keep and drop re-sort the marked pool by `order`;
the pool lookup is the raw face `roll`. -/
def applyMod (ctx : Ctx) (m : ModT) (rolls : List Res) (k : ℕ) :
    Except String (List Res × ℕ) :=
  match m with
  | .keep hl e =>
    match rollType ctx e k with
    | .error err => .error err
    | .ok (ev, k1) =>
      .ok (jsSort (fun a b => ((a.orderV - b.orderV : ℤ) : ℚ))
             (keepCore Res.valid markDropRes Res.rollV hl ev.value rolls), k1)
  | .dropM hl e =>
    match rollType ctx e k with
    | .error err => .error err
    | .ok (ev, k1) =>
      .ok (jsSort (fun a b => ((a.orderV - b.orderV : ℤ) : ℚ))
             (dropCore Res.valid markDropRes Res.rollV hl ev.value rolls), k1)
  | .succM cmp e =>
    match rollType ctx e k with
    | .error err => .error err
    | .ok (ev, k1) =>
      .ok (successFailureCore Res.valid Res.rollV bumpSuccRes cmp ev.value rolls, k1)
  | .failM cmp e =>
    match rollType ctx e k with
    | .error err => .error err
    | .ok (ev, k1) =>
      .ok (successFailureCore Res.valid Res.rollV bumpFailRes cmp ev.value rolls, k1)
  | .critM cmp e =>
    match rollType ctx e k with
    | .error err => .error err
    | .ok (ev, k1) => .ok (critCore "success" cmp ev.value rolls, k1)
  | .critfailM cmp e =>
    match rollType ctx e k with
    | .error err => .error err
    | .ok (ev, k1) => .ok (critCore "failure" cmp ev.value rolls, k1)
  | .explodeM tgt =>
    match evalTarget ctx tgt k with
    | .error err => .error err
    | .ok (tv, k1) => explodeMethodCore ctx.rand tv rolls k1
  | .compoundM tgt =>
    match evalTarget ctx tgt k with
    | .error err => .error err
    | .ok (tv, k1) => compoundMethodCore ctx.rand tv rolls k1
  | .penetrateM tgt =>
    match evalTarget ctx tgt k with
    | .error err => .error err
    | .ok (tv, k1) => penetrateMethodCore ctx.rand tv rolls k1
  | .rerollM tgt =>
    match evalTarget ctx tgt k with
    | .error err => .error err
    | .ok (tv, k1) => rerollMethodCore ctx.rand tv ctx.rerollFuel rolls k1
  | .rerollOnceM tgt =>
    match evalTarget ctx tgt k with
    | .error err => .error err
    | .ok (tv, k1) => rerollOnceMethodCore ctx.rand tv rolls k1

termination_by (sizeOf m, 1)

/-- Evaluate an optional explicit reroll/explode target to its comparator
and numeric value. -/
def evalTarget (ctx : Ctx) (t : Option (String × AST)) (k : ℕ) :
    Except String (Option (String × ℚ) × ℕ) :=
  match t with
  | none => .ok (none, k)
  | some (cmp, e) =>
    match rollType ctx e k with
    | .error err => .error err
    | .ok (tv, k1) => .ok (some (cmp, tv.value), k1)

termination_by (sizeOf t, 1)

/-- The group-level modifier fold over the tagged pool. -/
def applyGroupMods (ctx : Ctx) (mods : List ModT) (pool : List (ℕ × Res))
    (k : ℕ) : Except String (List (ℕ × Res) × ℕ) :=
  match mods with
  | [] => .ok (pool, k)
  | m :: rest =>
    match applyGroupMod ctx m pool k with
    | .error e => .error e
    | .ok (pool', k1) => applyGroupMods ctx rest pool' k1

termination_by (sizeOf mods, 1)

/-- `getGroupModMethod`: only success, failure, keep and drop are
recognised; the pool lookup is the resolved `value`, and keep/drop do NOT
re-sort by `order` afterwards (unlike the per-die dispatch). -/
def applyGroupMod (ctx : Ctx) (m : ModT) (pool : List (ℕ × Res)) (k : ℕ) :
    Except String (List (ℕ × Res) × ℕ) :=
  match m with
  | .succM cmp e =>
    match rollType ctx e k with
    | .error err => .error err
    | .ok (ev, k1) =>
      .ok (successFailureCore (fun p => p.2.valid) (fun p => p.2.value)
             bumpSuccTag cmp ev.value pool, k1)
  | .failM cmp e =>
    match rollType ctx e k with
    | .error err => .error err
    | .ok (ev, k1) =>
      .ok (successFailureCore (fun p => p.2.valid) (fun p => p.2.value)
             bumpFailTag cmp ev.value pool, k1)
  | .keep hl e =>
    match rollType ctx e k with
    | .error err => .error err
    | .ok (ev, k1) =>
      .ok (keepCore (fun p => p.2.valid) markDropTag (fun p => p.2.value)
             hl ev.value pool, k1)
  | .dropM hl e =>
    match rollType ctx e k with
    | .error err => .error err
    | .ok (ev, k1) =>
      .ok (dropCore (fun p => p.2.valid) markDropTag (fun p => p.2.value)
             hl ev.value pool, k1)
  | _ => .error ("Mod " ++ m.tyName ++ " is not recognised")

termination_by (sizeOf m, 1)

/-- The member evaluation of `rollGroup`: each member's result gets its
index as `order`. -/
def rollGroupMembers (ctx : Ctx) (ts : List AST) (idx : ℕ) (k : ℕ) :
    Except String (List Res × ℕ) :=
  match ts with
  | [] => .ok ([], k)
  | t :: rest =>
    match rollType ctx t k with
    | .error e => .error e
    | .ok (r, k1) =>
      let r' := r.mapCore fun c => { c with order := (idx : ℤ) }
      match rollGroupMembers ctx rest (idx + 1) k1 with
      | .error e => .error e
      | .ok (rs, k2) => .ok (r' :: rs, k2)

termination_by (sizeOf ts, 1)

/-- `rollGroup`: evaluate the members; with modifiers, either flatten a
single die / dice-expression member to its sub-entry pool (writing the
mutations back and refreshing the member's value as the sum of the pool's
valid entries) or apply the modifiers to the member sequence itself; the
group value is the sum of its valid children. -/
def rollGroup (ctx : Ctx) (ts : List AST) (mods : Option (List ModT)) (k : ℕ) :
    Except String (Res × ℕ) :=
  (rollGroupMembers ctx ts 0 k).bind (fun mk0 =>
    match mods with
    | none =>
      let value := validSum mk0.1
      .ok (.agg { ty := "grouproll", value := value, success := none,
                  successes := 0, failures := 0, valid := true, order := 0 }
            mk0.1, mk0.2)
    | some ms =>
      let hasTarget := ms.any ModT.isTargetMod
      (show Except String ((List Res × ℚ × ℚ) × ℕ) from
        match mk0.1 with
        | [r] =>
          if r.ty = "die" || r.ty = "diceexpressionroll" then
            (flattenPool r).bind (fun dice =>
              (applyGroupMods ctx ms dice.enum mk0.2).bind (fun pk =>
                let fin := groupModsFinish hasTarget pk.1
                let member := (writeBack r fin.1).mapCore fun c =>
                  { c with value := validSum (fin.1.map Prod.snd) }
                .ok (([member], fin.2.1, fin.2.2), pk.2)))
          else
            (applyGroupMods ctx ms mk0.1.enum mk0.2).bind (fun pk =>
              let fin := groupModsFinish hasTarget pk.1
              .ok ((fin.1.map Prod.snd, fin.2.1, fin.2.2), pk.2))
        | _ =>
          (applyGroupMods ctx ms mk0.1.enum mk0.2).bind (fun pk =>
            let fin := groupModsFinish hasTarget pk.1
            .ok ((fin.1.map Prod.snd, fin.2.1, fin.2.2), pk.2))).bind
       (fun st =>
        let value := validSum st.1.1
        .ok (.agg { ty := "grouproll", value := value,
                    success := if hasTarget then some (decide (0 < value))
                               else none,
                    successes := st.1.2.1, failures := st.1.2.2, valid := true,
                    order := 0 } st.1.1, st.2)))

termination_by (sizeOf (AST.group ts mods), 0)

end

/-! ## Basic lemmas about the embedding -/

theorem Res.core_mapCore (f : ResCore → ResCore) (r : Res) :
    (r.mapCore f).core = f r.core := by
  cases r <;> rfl

theorem Res.valid_mapCore (f : ResCore → ResCore) (r : Res) :
    (r.mapCore f).valid = (f r.core).valid := by
  cases r <;> rfl

theorem Res.value_mapCore (f : ResCore → ResCore) (r : Res) :
    (r.mapCore f).value = (f r.core).value := by
  cases r <;> rfl

theorem Res.ty_mapCore (f : ResCore → ResCore) (r : Res) :
    (r.mapCore f).ty = (f r.core).ty := by
  cases r <;> rfl

theorem Res.rollV_mapCore (f : ResCore → ResCore) (r : Res) :
    (r.mapCore f).rollV = (f r.core).roll := by
  cases r <;> rfl

theorem Res.dieV_mapCore (f : ResCore → ResCore) (r : Res) :
    (r.mapCore f).dieV = (f r.core).die := by
  cases r <;> rfl

theorem Res.orderV_mapCore (f : ResCore → ResCore) (r : Res) :
    (r.mapCore f).orderV = (f r.core).order := by
  cases r <;> rfl

/-! ### The keep/drop marking walk -/

/-- Marking the first `m` entries of a list (the shape `markWalk` takes on an
all-valid list with an integral drop count). -/
def markFirst {α : Type} (mark : α → α) : ℕ → List α → List α
  | 0, l => l
  | _ + 1, [] => []
  | m + 1, x :: xs => mark x :: markFirst mark m xs

theorem markWalk_length {α : Type} (iV : α → Bool) (mk : α → α) (d : ℚ) :
    ∀ (c : ℕ) (l : List α), (markWalk iV mk d c l).length = l.length := by
  intro c l
  induction l generalizing c with
  | nil => rfl
  | cons x xs ih =>
    rw [markWalk]
    split
    · split <;> simp [ih]
    · rfl

theorem mem_markWalk {α : Type} {iV : α → Bool} {mk : α → α} {d : ℚ} :
    ∀ {c : ℕ} {l : List α} {x : α}, x ∈ markWalk iV mk d c l →
      x ∈ l ∨ ∃ y, y ∈ l ∧ x = mk y := by
  intro c l
  induction l generalizing c with
  | nil => intro x h; simp [markWalk] at h
  | cons a as ih =>
    intro x h
    rw [markWalk] at h
    split at h
    · split at h
      · rcases List.mem_cons.1 h with h1 | h1
        · exact .inr ⟨a, List.mem_cons_self a as, h1⟩
        · rcases ih h1 with h2 | ⟨y, hy, hxy⟩
          · exact .inl (List.mem_cons_of_mem a h2)
          · exact .inr ⟨y, List.mem_cons_of_mem a hy, hxy⟩
      · rcases List.mem_cons.1 h with h1 | h1
        · exact .inl (h1 ▸ List.mem_cons_self a as)
        · rcases ih h1 with h2 | ⟨y, hy, hxy⟩
          · exact .inl (List.mem_cons_of_mem a h2)
          · exact .inr ⟨y, List.mem_cons_of_mem a hy, hxy⟩
    · exact .inl h

theorem markWalk_eq_markFirst {α : Type} (iV : α → Bool) (mk : α → α) :
    ∀ (m c : ℕ) (l : List α), (∀ x ∈ l, iV x = true) →
      markWalk iV mk ((c + m : ℕ) : ℚ) c l = markFirst mk m l := by
  intro m c l
  induction l generalizing c m with
  | nil => intro _; cases m <;> rfl
  | cons x xs ih =>
    intro hv
    rw [markWalk]
    cases m with
    | zero =>
      have : ¬ ((c : ℚ) < ((c + 0 : ℕ) : ℚ)) := by push_cast; simp
      rw [if_neg this]; rfl
    | succ m' =>
      have : ((c : ℚ) < ((c + (m' + 1) : ℕ) : ℚ)) := by
        push_cast
        have h0 : (0 : ℚ) ≤ (m' : ℚ) := by positivity
        linarith
      rw [if_pos this, if_pos (hv x (List.mem_cons_self x xs))]
      have h2 : ((c + (m' + 1) : ℕ) : ℚ) = ((c + 1) + m' : ℕ) := by push_cast; ring
      rw [h2, ih m' (c + 1) (fun y hy => hv y (List.mem_cons_of_mem x hy))]
      rfl

theorem markFirst_nil {α : Type} (mk : α → α) (m : ℕ) :
    markFirst mk m ([] : List α) = [] := by
  cases m <;> rfl

theorem markFirst_length {α : Type} (mk : α → α) :
    ∀ (m : ℕ) (l : List α), (markFirst mk m l).length = l.length := by
  intro m l
  induction l generalizing m with
  | nil => cases m <;> rfl
  | cons x xs ih => cases m with
    | zero => rfl
    | succ m' => simp [markFirst, ih]

theorem mem_markFirst {α : Type} {mk : α → α} :
    ∀ {m : ℕ} {l : List α} {x : α}, x ∈ markFirst mk m l →
      x ∈ l ∨ ∃ y, y ∈ l ∧ x = mk y := by
  intro m l
  induction l generalizing m with
  | nil => intro x h; cases m <;> simp [markFirst] at h
  | cons a as ih =>
    intro x h
    cases m with
    | zero => exact .inl h
    | succ m' =>
      rcases List.mem_cons.1 h with h1 | h1
      · exact .inr ⟨a, List.mem_cons_self a as, h1⟩
      · rcases ih h1 with h2 | ⟨y, hy, hxy⟩
        · exact .inl (List.mem_cons_of_mem a h2)
        · exact .inr ⟨y, List.mem_cons_of_mem a hy, hxy⟩

theorem markFirst_countP {α : Type} (iV : α → Bool) (mk : α → α)
    (hmk : ∀ x, iV (mk x) = false) :
    ∀ (m : ℕ) (l : List α), (∀ x ∈ l, iV x = true) →
      (markFirst mk m l).countP iV = l.length - min m l.length := by
  intro m l
  induction l generalizing m with
  | nil => intro _; cases m <;> simp [markFirst]
  | cons x xs ih =>
    intro hv
    cases m with
    | zero =>
      simp only [markFirst, Nat.min_zero, Nat.sub_zero]
      rw [List.countP_cons, List.countP_eq_length.2
            (fun y hy => hv y (List.mem_cons_of_mem x hy)),
          hv x (List.mem_cons_self x xs)]
      simp
    | succ m' =>
      simp only [markFirst, List.countP_cons, hmk x, List.length_cons]
      rw [ih m' (fun y hy => hv y (List.mem_cons_of_mem x hy)),
          show (if (false = true) then 1 else 0) = 0 from rfl]
      omega

theorem markFirst_map {α β : Type} (mk : α → α) (f : α → β)
    (hf : ∀ x, f (mk x) = f x) :
    ∀ (m : ℕ) (l : List α), (markFirst mk m l).map f = l.map f := by
  intro m l
  induction l generalizing m with
  | nil => cases m <;> rfl
  | cons x xs ih => cases m with
    | zero => rfl
    | succ m' => simp [markFirst, hf, ih]

/-! ### Stable-sort lemmas -/

theorem jsSort_perm {α : Type} (cmp : α → α → ℚ) (l : List α) :
    (jsSort cmp l).Perm l :=
  List.perm_insertionSort _ l

theorem jsSort_length {α : Type} (cmp : α → α → ℚ) (l : List α) :
    (jsSort cmp l).length = l.length :=
  List.length_insertionSort _ l

theorem mem_jsSort {α : Type} {cmp : α → α → ℚ} {l : List α} {x : α} :
    x ∈ jsSort cmp l ↔ x ∈ l :=
  List.mem_insertionSort _

/-- `insertionSort` leaves a list alone when the relation holds on every
(ordered) pair of its members — in particular for a constant-zero
comparator, which is how an all-valid pool passes through the keep method's
validity sort untouched. -/
theorem insertionSort_of_total_on {α : Type} (r : α → α → Prop)
    [DecidableRel r] :
    ∀ (l : List α), (∀ a ∈ l, ∀ b ∈ l, r a b) → List.insertionSort r l = l := by
  intro l
  induction l with
  | nil => intro _; rfl
  | cons x xs ih =>
    intro h
    rw [List.insertionSort,
        ih (fun a ha b hb =>
          h a (List.mem_cons_of_mem x ha) b (List.mem_cons_of_mem x hb))]
    cases xs with
    | nil => rfl
    | cons y ys =>
      rw [List.orderedInsert,
          if_pos (h x (List.mem_cons_self x _) y
            (List.mem_cons_of_mem x (List.mem_cons_self y ys)))]

/-! ### Characterising the keep method on all-valid pools -/

/-- On an all-valid pool whose keep count is the natural number `kq`, the
keep core is: value-sort, then mark the first `length − min kq length`
entries (the validity sort is the identity because every entry is valid and
the clamp arithmetic is exact). -/
theorem keepCore_all_valid {α : Type} (iV : α → Bool) (mk : α → α) (lk : α → ℚ)
    (hl : String) (kq : ℕ) (pool : List α)
    (hvalid : ∀ x ∈ pool, iV x = true) :
    keepCore iV mk lk hl (kq : ℚ) pool =
      markFirst mk (pool.length - min kq pool.length)
        (jsSort (fun a b => if hl = "l" then lk b - lk a else lk a - lk b) pool) := by
  rcases pool with _ | ⟨p, ps⟩
  · rw [show (jsSort (fun a b => if hl = "l" then lk b - lk a else lk a - lk b)
          ([] : List α)) = ([] : List α) from rfl, markFirst_nil]
    rfl
  · set pool := p :: ps with hpool
    have hlen : pool.length ≠ 0 := by simp [hpool]
    simp only [keepCore]
    rw [if_neg hlen]
    set sorted := jsSort (fun a b => if hl = "l" then lk b - lk a else lk a - lk b) pool
      with hsorted
    have hsv : ∀ x ∈ sorted, iV x = true := fun x hx => hvalid x (mem_jsSort.1 hx)
    have hs2 : jsSort (fun a b =>
        ((if iV a then 1 else 0) : ℚ) - (if iV b then 1 else 0)) sorted = sorted := by
      rw [jsSort]
      apply insertionSort_of_total_on
      intro a ha b hb
      dsimp only
      rw [hsv a ha, hsv b hb]
      norm_num
    rw [hs2]
    have hslen : sorted.length = pool.length := jsSort_length _ _
    have hcount : sorted.countP iV = pool.length := by
      rw [List.countP_eq_length.2 hsv, hslen]
    rw [hcount, hslen]
    have htk : max (min (kq : ℚ) (pool.length : ℚ)) 0 = ((min kq pool.length : ℕ) : ℚ) := by
      push_cast
      rw [max_eq_left]
      positivity
    rw [htk]
    have htd : ((pool.length : ℚ)) - ((min kq pool.length : ℕ) : ℚ) =
        ((0 + (pool.length - min kq pool.length) : ℕ) : ℚ) := by
      push_cast [Nat.cast_sub (Nat.min_le_right kq pool.length)]
      ring
    rw [htd, markWalk_eq_markFirst iV mk _ 0 sorted hsv]

/-- The drop flag carried by the keep/drop marking. -/
theorem markDropRes_spec (r : Res) :
    (markDropRes r).valid = false ∧ (markDropRes r).core.drop = true ∧
    (markDropRes r).orderV = r.orderV := by
  refine ⟨?_, ?_, ?_⟩ <;>
    simp [markDropRes, Res.valid_mapCore, Res.core_mapCore, Res.orderV_mapCore, Res.orderV]

/-- **C3 (amended).**  For every application of the keep modifier
(keep-highest with natural count `k`) to a sequence of `n` all-valid
entries: exactly `min k n` entries stay valid, every other entry is marked
`valid = false` and `drop = true`, and no entry is removed (the length is
preserved) — for per-die trial pools and group member pools alike.  The
returned sequence is restored to the entries' original relative order (by
their `order` field) only by the per-die dispatch, which re-sorts by
`order`; the group-level dispatch returns the marked pool still in the keep
method's value-sorted order (see the counterexample). -/
theorem c3_keep_amended (ctx : Ctx) (kq : ℕ) (k : ℕ) :
    (∀ (pool : List Res) (out : List Res) (k' : ℕ),
      (∀ x ∈ pool, x.valid = true) →
      pool.map Res.orderV = (List.range pool.length).map Int.ofNat →
      applyMod ctx (.keep "h" (.num (kq : ℚ))) pool k = .ok (out, k') →
        out.length = pool.length ∧
        out.countP Res.valid = min kq pool.length ∧
        (∀ r ∈ out, r.valid = false → r.core.drop = true) ∧
        out.map Res.orderV = pool.map Res.orderV) ∧
    (∀ (tpool : List (ℕ × Res)) (gout : List (ℕ × Res)) (k' : ℕ),
      (∀ x ∈ tpool, x.2.valid = true) →
      applyGroupMod ctx (.keep "h" (.num (kq : ℚ))) tpool k = .ok (gout, k') →
        gout.length = tpool.length ∧
        gout.countP (fun p => p.2.valid) = min kq tpool.length ∧
        (∀ p ∈ gout, p.2.valid = false → p.2.core.drop = true)) := by
  constructor
  · intro pool out k' hvalid horder happ
    have heval : rollType ctx (.num (kq : ℚ)) k =
        .ok ((Res.leaf { ty := "number", value := (kq : ℚ), success := none,
                         successes := 0, failures := 0, valid := true,
                         order := 0 } : Res), k) := by
      simp only [rollType]
    rw [applyMod, heval] at happ
    have hout : out = jsSort (fun a b => ((a.orderV - b.orderV : ℤ) : ℚ))
        (keepCore Res.valid markDropRes Res.rollV "h" (kq : ℚ) pool) := by
      cases happ; rfl
    have hk' : k' = k := by cases happ; rfl
    subst hout hk'
    rw [keepCore_all_valid Res.valid markDropRes Res.rollV "h" kq pool hvalid]
    set m := pool.length - min kq pool.length with hm
    set sorted := jsSort (fun a b =>
      if "h" = "l" then Res.rollV b - Res.rollV a else Res.rollV a - Res.rollV b) pool
      with hsorted
    have hsperm : sorted.Perm pool := jsSort_perm _ _
    have hsv : ∀ x ∈ sorted, x.valid = true := fun x hx => hvalid x (hsperm.mem_iff.1 hx)
    set marked := markFirst markDropRes m sorted with hmarked
    have hmperm : (jsSort (fun a b => ((a.orderV - b.orderV : ℤ) : ℚ)) marked).Perm marked :=
      jsSort_perm _ _
    refine ⟨?_, ?_, ?_, ?_⟩
    · rw [jsSort_length, markFirst_length, hsperm.length_eq]
    · rw [hmperm.countP_eq]
      rw [markFirst_countP Res.valid markDropRes (fun x => (markDropRes_spec x).1) m sorted hsv]
      rw [hsperm.length_eq, hm]
      omega
    · intro r hr hrv
      rcases mem_markFirst (hmperm.mem_iff.1 hr) with h1 | ⟨y, _, hy⟩
      · rw [hsv r h1] at hrv; cases hrv
      · rw [hy]; exact (markDropRes_spec y).2.1
    · -- order restoration
      have hperm : ((jsSort (fun a b => ((a.orderV - b.orderV : ℤ) : ℚ)) marked).map
          Res.orderV).Perm (pool.map Res.orderV) := by
        refine (hmperm.map Res.orderV).trans ?_
        rw [hmarked, markFirst_map markDropRes Res.orderV
              (fun x => (markDropRes_spec x).2.2) m sorted]
        exact hsperm.map Res.orderV
      have hsorted2 : (jsSort (fun a b => ((a.orderV - b.orderV : ℤ) : ℚ)) marked).Sorted
          (fun a b : Res => (((a.orderV - b.orderV : ℤ) : ℚ) ≤ 0)) := by
        haveI : IsTotal Res (fun a b : Res => (((a.orderV - b.orderV : ℤ) : ℚ) ≤ 0)) := by
          constructor; intro a b
          rcases le_total a.orderV b.orderV with h | h
          · left; push_cast; simp [h]
          · right; push_cast; simp [h]
        haveI : IsTrans Res (fun a b : Res => (((a.orderV - b.orderV : ℤ) : ℚ) ≤ 0)) := by
          constructor; intro a b c hab hbc
          push_cast at hab hbc ⊢
          linarith
        exact List.sorted_insertionSort _ _
      have hmap_sorted : ((jsSort (fun a b => ((a.orderV - b.orderV : ℤ) : ℚ)) marked).map
          Res.orderV).Sorted (· ≤ ·) := by
        refine List.Pairwise.map Res.orderV ?_ hsorted2
        intro a b hab
        have h2 : ((a.orderV : ℚ)) ≤ ((b.orderV : ℚ)) := by push_cast at hab; linarith
        exact_mod_cast h2
      have hpool_sorted : (pool.map Res.orderV).Sorted (· ≤ ·) := by
        rw [horder]
        refine List.Pairwise.map _ ?_ (List.sorted_le_range pool.length)
        intro a b hab
        exact Int.ofNat_le.2 hab
      exact List.eq_of_perm_of_sorted hperm hmap_sorted hpool_sorted
  · intro tpool gout k' hvalid happ
    have heval : rollType ctx (.num (kq : ℚ)) k =
        .ok ((Res.leaf { ty := "number", value := (kq : ℚ), success := none,
                         successes := 0, failures := 0, valid := true,
                         order := 0 } : Res), k) := by
      simp only [rollType]
    rw [applyGroupMod, heval] at happ
    have hout : gout = keepCore (fun p => p.2.valid) markDropTag (fun p => p.2.value)
        "h" (kq : ℚ) tpool := by
      cases happ; rfl
    subst hout
    rw [keepCore_all_valid (fun p => p.2.valid) markDropTag (fun p => p.2.value)
          "h" kq tpool hvalid]
    set sorted := jsSort (fun a b =>
      if "h" = "l" then (fun p : ℕ × Res => p.2.value) b - (fun p : ℕ × Res => p.2.value) a
      else (fun p : ℕ × Res => p.2.value) a - (fun p : ℕ × Res => p.2.value) b) tpool
      with hsorted
    have hsperm : sorted.Perm tpool := jsSort_perm _ _
    have hsv : ∀ x ∈ sorted, x.2.valid = true := fun x hx => hvalid x (hsperm.mem_iff.1 hx)
    refine ⟨?_, ?_, ?_⟩
    · rw [markFirst_length, hsperm.length_eq]
    · rw [markFirst_countP (fun p => p.2.valid) markDropTag
            (fun x => by simp [markDropTag, (markDropRes_spec x.2).1]) _ sorted hsv,
          hsperm.length_eq]
      omega
    · intro p hp hpv
      rcases mem_markFirst hp with h1 | ⟨y, _, hy⟩
      · rw [hsv p h1] at hpv; cases hpv
      · rw [hy]
        simpa [markDropTag] using (markDropRes_spec y.2).2.1

/-! ## Concrete fixtures for witnesses and counterexamples -/

/-- A random source replaying a fixed list of floats (0 afterwards). -/
def constSrc (vals : List ℚ) : ℕ → ℚ := fun n => vals.getD n 0

/-- An evaluator configuration with a replayed random source and the
default identity replacement resolver. -/
def mkCtx (vals : List ℚ) : Ctx :=
  { rand := constSrc vals, repl := fun _ x => x }

/-- Extract a successful result (a dummy on error, for stating concrete
facts about evaluations known to succeed). -/
def outRes (e : Except String (Res × ℕ)) : Res :=
  match e with
  | .ok (r, _) => r
  | .error _ => .leaf { ty := "evalerror", value := 0 }

/-- A standard-die trial leaf with the given face value and order (as the
trial generator produces, with face count 6). -/
def mkT (v : ℚ) (i : ℤ) : Res :=
  .leaf { ty := "roll", value := v, roll := v, die := 6, order := i }

/-- A group-member pool entry (tag, number member) with the given value and
order. -/
def mkM (tag : ℕ) (v : ℚ) (i : ℤ) : ℕ × Res :=
  (tag, .leaf { ty := "number", value := v, order := i })

/-- Witness pool for C3: three valid trials with raw faces 3, 1, 2 in
orders 0, 1, 2. -/
def c3wpool : List Res := [mkT 3 0, mkT 1 1, mkT 2 2]

/-- The per-die keep-highest-2 output on `c3wpool`: the lowest trial is
dropped and the sequence is back in original order. -/
def c3wout : List Res := [mkT 3 0, markDropRes (mkT 1 1), mkT 2 2]

/-- Witness for C3: keep-highest 2 over the three all-valid trials keeps
two valid, drops one, and the per-die dispatch returns them in original
`order` sequence. -/
theorem c3_keep_amended_witness :
    applyMod (mkCtx []) (.keep "h" (.num ((2 : ℕ) : ℚ))) c3wpool 0 = .ok (c3wout, 0) ∧
    c3wout.length = 3 ∧ c3wout.countP Res.valid = min 2 3 ∧
    (∀ r ∈ c3wout, r.valid = false → r.core.drop = true) ∧
    c3wout.map Res.orderV = [0, 1, 2] := by
  have happ : applyMod (mkCtx []) (.keep "h" (.num ((2 : ℕ) : ℚ))) c3wpool 0 =
      .ok (c3wout, 0) := by
    simp only [applyMod, rollType]
    norm_num [keepCore, jsSort, List.insertionSort, List.orderedInsert, markWalk,
      c3wpool, c3wout, mkT, markDropRes, Res.mapCore, Res.valid, Res.value, Res.rollV,
      Res.orderV, Res.ty, Res.core, List.countP, List.countP.go, min_def, max_def]
  have hvalid : ∀ x ∈ c3wpool, x.valid = true := by decide
  have horder : c3wpool.map Res.orderV = (List.range c3wpool.length).map Int.ofNat := by
    decide
  have h := (c3_keep_amended (mkCtx []) 2 0).1 c3wpool c3wout 0 hvalid horder happ
  refine ⟨happ, h.1, h.2.1, h.2.2.1, ?_⟩
  rw [h.2.2.2]; decide

/-- Counterexample pool for C3: three all-valid group members with values
3, 1, 2 in orders 0, 1, 2. -/
def c3gpool : List (ℕ × Res) := [mkM 0 3 0, mkM 1 1 1, mkM 2 2 2]

/-- **C3 counterexample.**  The claim asserts the keep modifier returns a
group member pool in the entries' original relative order.  The group-level
keep dispatch (`getGroupModMethod` → `getKeepMethod`), applied with
keep-highest 2 to all-valid members in orders `[0, 1, 2]`, returns the
sequence in value-sorted order `[1, 2, 0]` — there is no re-sort by `order`
on the group path, so the claim is false on this input. -/
theorem c3_keep_counterexample :
    (∃ gout, applyGroupMod (mkCtx []) (.keep "h" (.num ((2 : ℕ) : ℚ))) c3gpool 0 =
        .ok (gout, 0) ∧ gout.map (fun p => p.2.orderV) = [1, 2, 0]) ∧
    c3gpool.map (fun p => p.2.orderV) = [0, 1, 2] := by
  constructor
  · refine ⟨keepCore (fun p => p.2.valid) markDropTag (fun p => p.2.value)
      "h" ((2 : ℕ) : ℚ) c3gpool, ?_, ?_⟩
    · simp only [applyGroupMod, rollType, Res.value, Res.core]
    · norm_num [keepCore, jsSort, List.insertionSort, List.orderedInsert, markWalk,
        c3gpool, mkM, markDropTag, markDropRes, Res.mapCore, Res.valid, Res.value,
        Res.rollV, Res.orderV, Res.ty, Res.core, List.countP, List.countP.go,
        min_def, max_def]
  · decide

/-- **C9.**  The shared success test returns true under `">"` (at-least)
iff `value ≥ target`, under `"<"` (at-most) iff `value ≤ target`, and under
`"="` or any unrecognised comparator iff `value = target`.  It is embedded
as a pure function of its three arguments, mirroring the side-effect-free
source. -/
theorem c9_success_test :
    (∀ t v : ℚ, successTest ">" t v = decide (t ≤ v)) ∧
    (∀ t v : ℚ, successTest "<" t v = decide (v ≤ t)) ∧
    (∀ (m : String) (t v : ℚ), m ≠ ">" → m ≠ "<" →
      successTest m t v = decide (v = t)) := by
  refine ⟨fun t v => rfl, fun t v => rfl, fun m t v h1 h2 => ?_⟩
  simp [successTest, h1, h2]

/-- Witness for C9 at concrete inputs, including an unrecognised
comparator. -/
theorem c9_success_test_witness :
    successTest ">" 4 6 = true ∧ successTest "<" 4 6 = false ∧
    successTest "?" 4 4 = true := by
  have h := c9_success_test
  refine ⟨?_, ?_, ?_⟩
  · rw [h.1 4 6]; decide
  · rw [h.2.1 4 6]; decide
  · rw [h.2.2 "?" 4 4 (by decide) (by decide)]; decide

/-- **C5.**  Evaluation is reproducible: the embedded evaluator is a pure
function of the syntax tree and of the injected random source, modelled as
the sequence of floats it returns, consumed in canonical left-to-right
order (the source event-loop interleaving is likewise deterministic).  Two
evaluations of the same tree against sources returning the same float
sequence, starting at the same cursor, produce identical result
trees — the same `value`, `roll` and `order` at every node, since the whole
`Res` trees are equal. -/
theorem c5_deterministic_replay :
    ∀ (s₁ s₂ : ℕ → ℚ) (rf : String → ℚ → ℚ) (mrc : ℚ) (fuel : ℕ) (t : AST)
      (k : ℕ),
      (∀ n, s₁ n = s₂ n) →
      rollType { rand := s₁, repl := rf, maxRollCount := mrc, rerollFuel := fuel } t k =
      rollType { rand := s₂, repl := rf, maxRollCount := mrc, rerollFuel := fuel } t k := by
  intro s₁ s₂ rf mrc fuel t k h
  have hs : s₁ = s₂ := funext h
  rw [hs]

/-- Witness for C5: replaying the all-halves source on `2d6`. -/
theorem c5_deterministic_replay_witness :
    rollType { rand := fun _ => 1/2, repl := fun _ x => x, maxRollCount := 1000,
               rerollFuel := 9 } (.die (.num 2) (some (.num 6)) none none none none) 0 =
    rollType { rand := fun n => 1/2, repl := fun _ x => x, maxRollCount := 1000,
               rerollFuel := 9 } (.die (.num 2) (some (.num 6)) none none none none) 0 :=
  c5_deterministic_replay (fun _ => 1/2) (fun _ => 1/2) (fun _ x => x) 1000 9
    (.die (.num 2) (some (.num 6)) none none none none) 0 (fun _ => rfl)

/-- **C1 (code bug).**  The claim (and §4.1/§8 of the spec, and the
commented-out `Math.floor` line that the current code replaced "to avoid
floating math errors") requires every generated raw `roll` to lie in
`[1, faces]`.  The shipped generator instead computes
`parseInt((rand * die).toFixed()) + 1`, which rounds to the nearest
integer: with faces = 6 and the legal random float 0.95 it rounds
0.95·6 = 5.7 up to 6 and returns `roll = 7 ∉ [1, 6]`.  (The claim's other
conjunct — the die value being the sum of the trials — holds and is part
of C4's theorem.) -/
theorem c1_roll_exceeds_faces :
    (generateDiceRoll 6 0 (19/20)).rollV = 7 ∧
    ¬ ((generateDiceRoll 6 0 (19/20)).rollV ≤ 6) ∧
    (0 ≤ (19/20 : ℚ) ∧ (19/20 : ℚ) < 1) := by
  have hRF : ∀ q : ℚ, q.floor = ⌊q⌋ := fun q => rfl
  have h : (generateDiceRoll 6 0 (19/20)).rollV = 7 := by
    norm_num [generateDiceRoll, jsRound, Res.rollV, Res.core]
    have h6 : ⌊(31/5 : ℚ)⌋ = 6 := by
      rw [show (31/5 : ℚ) = ((31:ℤ) : ℚ) / ((5:ℕ) : ℚ) by norm_num,
          Rat.floor_intCast_div_natCast]
      decide
    rw [hRF, h6]
    norm_num
  refine ⟨h, ?_, by norm_num⟩
  rw [h]; norm_num

/-- A trial leaf on a one-faced die with the given raw roll, exactly the
record `generateDiceRoll 1` produces. -/
def mkD1Trial (v : ℚ) : Res :=
  .leaf { ty := "roll", value := v, roll := v, die := 1, order := 0,
          critical := if v = 1 then some "success" else none }

/-! ### The degenerate-target guards (C2) -/

theorem rerollError_ne (t : String) :
    ("Cannot do a reroll of a " ++ t ++ ".") ≠ "Invalid reroll target" := by
  intro h
  have h2 := congrArg String.length h
  simp only [String.length_append] at h2
  have h3 : ("Cannot do a reroll of a ").length = 24 := by decide
  have h4 : (".").length = 1 := by decide
  have h5 : ("Invalid reroll target").length = 21 := by decide
  omega

theorem reRollRes_error_ne (r : Res) (o : ℤ) (q : ℚ) (e : String) :
    reRollRes r o q = .error e → e ≠ "Invalid reroll target" := by
  intro h
  rw [reRollRes] at h
  split_ifs at h with h1 h2 <;>
    first
      | (injection h with he; subst he; exact rerollError_ne _)
      | cases h

theorem explodeChain_error_ne (src : ℕ → ℚ) (tm : Res → Bool) :
    ∀ (fuel : ℕ) (r : Res) (pos : ℤ) (k : ℕ) (e : String),
      explodeChain src tm fuel r pos k = .error e → e ≠ "Invalid reroll target" := by
  intro fuel
  induction fuel with
  | zero => intro r pos k e h; cases h
  | succ n ih =>
    intro r pos k e h
    rw [explodeChain] at h
    (try dsimp only at h)
    by_cases htm : tm r
    · rw [if_pos htm] at h
      cases hre : reRollRes (r.mapCore fun c => { c with explode := true })
          (pos + 1) (src k) with
      | error e' =>
        rw [hre] at h
        cases h
        exact reRollRes_error_ne _ _ _ _ hre
      | ok nr =>
        rw [hre] at h
        dsimp only at h
        cases hch : explodeChain src tm n nr (pos + 1) (k + 1) with
        | error e' => rw [hch] at h; cases h; exact ih _ _ _ _ hch
        | ok p => rw [hch] at h; cases h
    · rw [if_neg htm] at h; cases h

theorem explodeWalk_error_ne (src : ℕ → ℚ) (tm : Res → Bool) :
    ∀ (l : List Res) (pos : ℤ) (k : ℕ) (e : String),
      explodeWalk src tm l pos k = .error e → e ≠ "Invalid reroll target" := by
  intro l
  induction l with
  | nil => intro pos k e h; cases h
  | cons r rest ih =>
    intro pos k e h
    rw [explodeWalk] at h
    (try dsimp only at h)
    cases hch : explodeChain src tm 1000 (r.mapCore fun c => { c with order := pos })
        pos k with
    | error e' => rw [hch] at h; cases h; exact explodeChain_error_ne src tm _ _ _ _ _ hch
    | ok p =>
      obtain ⟨chain, pos', k'⟩ := p
      rw [hch] at h
      dsimp only at h
      cases hw : explodeWalk src tm rest (pos' + 1) k' with
      | error e' => rw [hw] at h; cases h; exact ih _ _ _ hw
      | ok q => rw [hw] at h; cases h

theorem penetrateChain_error_ne (src : ℕ → ℚ) (tm : Res → Bool) :
    ∀ (fuel : ℕ) (r : Res) (pos : ℤ) (k : ℕ) (e : String),
      penetrateChain src tm fuel r pos k = .error e → e ≠ "Invalid reroll target" := by
  intro fuel
  induction fuel with
  | zero => intro r pos k e h; cases h
  | succ n ih =>
    intro r pos k e h
    rw [penetrateChain] at h
    (try dsimp only at h)
    by_cases htm : tm r
    · rw [if_pos htm] at h
      cases hre : reRollRes (r.mapCore fun c => { c with explode := true })
          (pos + 1) (src k) with
      | error e' =>
        rw [hre] at h
        cases h
        exact reRollRes_error_ne _ _ _ _ hre
      | ok nr =>
        rw [hre] at h
        dsimp only at h
        cases hch : penetrateChain src tm n
            (nr.mapCore fun c => { c with value := c.value - 1 }) (pos + 1) (k + 1) with
        | error e' => rw [hch] at h; cases h; exact ih _ _ _ _ hch
        | ok p => rw [hch] at h; cases h
    · rw [if_neg htm] at h; cases h

theorem penetrateWalk_error_ne (src : ℕ → ℚ) (tm : Res → Bool) :
    ∀ (l : List Res) (pos : ℤ) (k : ℕ) (e : String),
      penetrateWalk src tm l pos k = .error e → e ≠ "Invalid reroll target" := by
  intro l
  induction l with
  | nil => intro pos k e h; cases h
  | cons r rest ih =>
    intro pos k e h
    rw [penetrateWalk] at h
    (try dsimp only at h)
    cases hch : penetrateChain src tm 1000 (r.mapCore fun c => { c with order := pos })
        pos k with
    | error e' => rw [hch] at h; cases h; exact penetrateChain_error_ne src tm _ _ _ _ _ hch
    | ok p =>
      obtain ⟨chain, pos', k'⟩ := p
      rw [hch] at h
      dsimp only at h
      cases hw : penetrateWalk src tm rest (pos' + 1) k' with
      | error e' => rw [hw] at h; cases h; exact ih _ _ _ hw
      | ok q => rw [hw] at h; cases h

theorem compoundChain_error_ne (src : ℕ → ℚ) (tm : Res → Bool) :
    ∀ (fuel : ℕ) (r : Res) (acc : ℚ) (pos : ℤ) (k : ℕ) (e : String),
      compoundChain src tm fuel r acc pos k = .error e → e ≠ "Invalid reroll target" := by
  intro fuel
  induction fuel with
  | zero => intro r acc pos k e h; cases h
  | succ n ih =>
    intro r acc pos k e h
    rw [compoundChain] at h
    by_cases htm : tm r
    · rw [if_pos htm] at h
      cases hre : reRollRes r pos (src k) with
      | error e' =>
        rw [hre] at h
        cases h
        exact reRollRes_error_ne _ _ _ _ hre
      | ok nr =>
        rw [hre] at h
        dsimp only at h
        exact ih _ _ _ _ _ h
    · rw [if_neg htm] at h; cases h

theorem compoundWalk_error_ne (src : ℕ → ℚ) (tm : Res → Bool) :
    ∀ (l : List Res) (pos : ℤ) (k : ℕ) (e : String),
      compoundWalk src tm l pos k = .error e → e ≠ "Invalid reroll target" := by
  intro l
  induction l with
  | nil => intro pos k e h; cases h
  | cons r rest ih =>
    intro pos k e h
    rw [compoundWalk] at h
    (try dsimp only at h)
    cases hch : compoundChain src tm 1000 r r.rollV (pos + 1) k with
    | error e' => rw [hch] at h; cases h; exact compoundChain_error_ne src tm _ _ _ _ _ _ hch
    | ok p =>
      obtain ⟨acc, k'⟩ := p
      rw [hch] at h
      dsimp only at h
      cases hw : compoundWalk src tm rest (pos + 1) k' with
      | error e' => rw [hw] at h; cases h; exact ih _ _ _ hw
      | ok q => rw [hw] at h; cases h

/-- **C2 (amended).**  The invalid-target error of explode and compound is
raised exactly when the target is an explicit comparator+value, the first
entry of the pool is a standard-die leaf, and the target test passes on
both 1 and that entry's face count.  Penetrate raises it exactly when the
target is explicit, the first entry is a standard-die leaf whose actual
raw roll passes the test, and the test also passes on 1.  With the
implicit equals-maximum default none of the three ever raises the error:
the guard probes of explode/compound read the `die` property off an
object that lacks it (comparing a number to `undefined`), and penetrate's
guard requires an explicit target outright — the loops are bounded by the
1000-iteration per-entry cap instead of failing fast. -/
theorem c2_degenerate_guard_amended :
    (∀ (src : ℕ → ℚ) (tgt : Option (String × ℚ)) (rolls : List Res) (k : ℕ),
      explodeMethodCore src tgt rolls k = .error "Invalid reroll target" ↔
      ∃ cmp tv r rest, tgt = some (cmp, tv) ∧ rolls = r :: rest ∧ r.ty = "roll" ∧
        successTest cmp tv 1 = true ∧ successTest cmp tv r.dieV = true) ∧
    (∀ (src : ℕ → ℚ) (tgt : Option (String × ℚ)) (rolls : List Res) (k : ℕ),
      compoundMethodCore src tgt rolls k = .error "Invalid reroll target" ↔
      ∃ cmp tv r rest, tgt = some (cmp, tv) ∧ rolls = r :: rest ∧ r.ty = "roll" ∧
        successTest cmp tv 1 = true ∧ successTest cmp tv r.dieV = true) ∧
    (∀ (src : ℕ → ℚ) (tgt : Option (String × ℚ)) (rolls : List Res) (k : ℕ),
      penetrateMethodCore src tgt rolls k = .error "Invalid reroll target" ↔
      ∃ cmp tv r rest, tgt = some (cmp, tv) ∧ rolls = r :: rest ∧ r.ty = "roll" ∧
        successTest cmp tv r.rollV = true ∧ successTest cmp tv 1 = true) := by
  have hty : ("TypeError: rolls[0] is undefined" : String) ≠ "Invalid reroll target" := by
    decide
  refine ⟨?_, ?_, ?_⟩
  · intro src tgt rolls k
    cases rolls with
    | nil =>
      rw [explodeMethodCore]
      constructor
      · intro h; injection h with he; exact absurd he hty
      · rintro ⟨cmp, tv, r, rest, _, hro, _⟩; cases hro
    | cons r rest =>
      rw [explodeMethodCore]
      by_cases hg : (r.ty = "roll" && explodeProbe tgt 1 && explodeProbe tgt r.dieV) = true
      · rw [if_pos hg]
        simp only [Bool.and_eq_true, decide_eq_true_eq] at hg
        obtain ⟨⟨hty', hp1⟩, hp2⟩ := hg
        constructor
        · intro _
          cases tgt with
          | none => cases hp1
          | some p =>
            exact ⟨p.1, p.2, r, rest, rfl, rfl, hty', hp1, hp2⟩
        · intro _; rfl
      · rw [if_neg hg]
        constructor
        · intro h
          exact absurd rfl (explodeWalk_error_ne src (explodeTargetTest tgt) _ _ _ _ h)
        · rintro ⟨cmp, tv, r', rest', htgt, hro, hty', h1, h2⟩
          cases hro
          subst htgt
          exact absurd (by simp [explodeProbe, hty', h1, h2]) hg
  · intro src tgt rolls k
    cases rolls with
    | nil =>
      rw [compoundMethodCore]
      constructor
      · intro h; injection h with he; exact absurd he hty
      · rintro ⟨cmp, tv, r, rest, _, hro, _⟩; cases hro
    | cons r rest =>
      rw [compoundMethodCore]
      by_cases hg : (r.ty = "roll" && explodeProbe tgt 1 && explodeProbe tgt r.dieV) = true
      · rw [if_pos hg]
        simp only [Bool.and_eq_true, decide_eq_true_eq] at hg
        obtain ⟨⟨hty', hp1⟩, hp2⟩ := hg
        constructor
        · intro _
          cases tgt with
          | none => cases hp1
          | some p =>
            exact ⟨p.1, p.2, r, rest, rfl, rfl, hty', hp1, hp2⟩
        · intro _; rfl
      · rw [if_neg hg]
        constructor
        · intro h
          exact absurd rfl (compoundWalk_error_ne src (explodeTargetTest tgt) _ _ _ _ h)
        · rintro ⟨cmp, tv, r', rest', htgt, hro, hty', h1, h2⟩
          cases hro
          subst htgt
          exact absurd (by simp [explodeProbe, hty', h1, h2]) hg
  · intro src tgt rolls k
    cases tgt with
    | none =>
      rw [penetrateMethodCore]
      constructor
      · intro h
        exact absurd rfl (penetrateWalk_error_ne src (explodeTargetTest none) _ _ _ _ h)
      · rintro ⟨cmp, tv, r, rest, htgt, _, _⟩; cases htgt
    | some p =>
      obtain ⟨cmp, tv⟩ := p
      cases rolls with
      | nil =>
        rw [penetrateMethodCore]
        constructor
        · intro h; injection h with he; exact absurd he hty
        · rintro ⟨cmp', tv', r, rest, _, hro, _⟩; cases hro
      | cons r rest =>
        rw [penetrateMethodCore]
        by_cases hg : (r.ty = "roll" && successTest cmp tv r.rollV &&
            successTest cmp tv 1) = true
        · rw [if_pos hg]
          simp only [Bool.and_eq_true, decide_eq_true_eq] at hg
          obtain ⟨⟨hty', hp1⟩, hp2⟩ := hg
          constructor
          · intro _
            exact ⟨cmp, tv, r, rest, rfl, rfl, hty', hp1, hp2⟩
          · intro _; rfl
        · rw [if_neg hg]
          constructor
          · intro h
            exact absurd rfl
              (penetrateWalk_error_ne src (explodeTargetTest (some (cmp, tv))) _ _ _ _ h)
          · rintro ⟨cmp', tv', r', rest', htgt, hro, hty', h1, h2⟩
            cases hro
            cases htgt
            exact absurd (by simp [hty', h1, h2]) hg

/-- Witness for C2: the explicit target `= 1` on a one-faced-die trial pool
(the spec's `1d1!=1` example) makes explode fail fast with the
invalid-target error. -/
theorem c2_degenerate_guard_witness :
    explodeMethodCore (constSrc []) (some ("=", 1)) [mkD1Trial 1] 0 =
      .error "Invalid reroll target" := by
  apply (c2_degenerate_guard_amended.1 (constSrc []) (some ("=", 1)) [mkD1Trial 1] 0).2
  exact ⟨"=", 1, mkD1Trial 1, [], rfl, rfl, rfl, by decide, by decide⟩

/-- **C2 counterexample.**  The claim says penetrate, applied to a
non-empty standard-trial sequence whose resolved target matches both 1 and
the face count, fails immediately with an invalid-target error.  Take the
one-faced die with explicit target `= 1` (which matches 1, and matches the
face count 1) and a first trial with raw roll 2 — exactly what the
generator produces for the random float 0.5 (first conjunct).  Penetrate's
guard tests the first trial's actual roll instead of the face count, so no
error is raised: evaluation succeeds and returns the pool unchanged, with
no draw consumed. -/
theorem c2_degenerate_guard_counterexample :
    generateDiceRoll 1 0 (1/2) = mkD1Trial 2 ∧
    successTest "=" 1 1 = true ∧ (mkD1Trial 2).dieV = 1 ∧
    penetrateMethodCore (constSrc []) (some ("=", 1)) [mkD1Trial 2] 0 =
      .ok ([mkD1Trial 2], 0) := by
  refine ⟨?_, by decide, by decide, ?_⟩
  · have hf : (1 : ℚ).floor = 1 := by decide
    norm_num [generateDiceRoll, jsRound, mkD1Trial, hf]
  · rfl

/-! ### Frame effects of compound and explode (C7) -/

theorem compoundWalk_length (src : ℕ → ℚ) (tm : Res → Bool) :
    ∀ (l : List Res) (pos : ℤ) (k : ℕ) (out : List Res) (k' : ℕ),
      compoundWalk src tm l pos k = .ok (out, k') → out.length = l.length := by
  intro l
  induction l with
  | nil => intro pos k out k' h; cases h; rfl
  | cons r rest ih =>
    intro pos k out k' h
    rw [compoundWalk] at h
    cases hch : compoundChain src tm 1000 r r.rollV (pos + 1) k with
    | error e => rw [hch] at h; cases h
    | ok p =>
      obtain ⟨acc, k1⟩ := p
      rw [hch] at h
      dsimp only at h
      cases hw : compoundWalk src tm rest (pos + 1) k1 with
      | error e => rw [hw] at h; cases h
      | ok q =>
        obtain ⟨out', k2⟩ := q
        rw [hw] at h
        dsimp only at h
        cases h
        simp [ih _ _ _ _ hw]

theorem explodeChain_ok_ne_nil (src : ℕ → ℚ) (tm : Res → Bool)
    (fuel : ℕ) (r : Res) (pos : ℤ) (k : ℕ) (chain : List Res) (pos' : ℤ) (k' : ℕ)
    (h : explodeChain src tm fuel r pos k = .ok (chain, pos', k')) :
    1 ≤ chain.length := by
  cases fuel with
  | zero => cases h; simp
  | succ n =>
    rw [explodeChain] at h
    (try dsimp only at h)
    by_cases htm : tm r
    · rw [if_pos htm] at h
      cases hre : reRollRes (r.mapCore fun c => { c with explode := true })
          (pos + 1) (src k) with
      | error e => rw [hre] at h; cases h
      | ok nr =>
        rw [hre] at h
        dsimp only at h
        cases hch : explodeChain src tm n nr (pos + 1) (k + 1) with
        | error e => rw [hch] at h; cases h
        | ok p =>
          obtain ⟨chain', p', k2⟩ := p
          rw [hch] at h
          dsimp only at h
          cases h
          simp
    · rw [if_neg htm] at h
      cases h
      simp

theorem explodeChain_ok_two (src : ℕ → ℚ) (tm : Res → Bool)
    (n : ℕ) (r : Res) (pos : ℤ) (k : ℕ) (chain : List Res) (pos' : ℤ) (k' : ℕ)
    (htm : tm r = true)
    (h : explodeChain src tm (n + 1) r pos k = .ok (chain, pos', k')) :
    2 ≤ chain.length := by
  rw [explodeChain] at h
  (try dsimp only at h)
  rw [if_pos htm] at h
  cases hre : reRollRes (r.mapCore fun c => { c with explode := true })
      (pos + 1) (src k) with
  | error e => rw [hre] at h; cases h
  | ok nr =>
    rw [hre] at h
    dsimp only at h
    cases hch : explodeChain src tm n nr (pos + 1) (k + 1) with
    | error e => rw [hch] at h; cases h
    | ok p =>
      obtain ⟨chain', p2, k2⟩ := p
      rw [hch] at h
      dsimp only at h
      have hlen := explodeChain_ok_ne_nil src tm n nr (pos + 1) (k + 1) chain' p2 k2 hch
      cases h
      simp only [List.length_cons]
      omega

theorem explodeWalk_length_ge (src : ℕ → ℚ) (tm : Res → Bool) :
    ∀ (l : List Res) (pos : ℤ) (k : ℕ) (out : List Res) (k' : ℕ),
      explodeWalk src tm l pos k = .ok (out, k') → l.length ≤ out.length := by
  intro l
  induction l with
  | nil => intro pos k out k' h; cases h; simp
  | cons r rest ih =>
    intro pos k out k' h
    rw [explodeWalk] at h
    (try dsimp only at h)
    cases hch : explodeChain src tm 1000 (r.mapCore fun c => { c with order := pos })
        pos k with
    | error e => rw [hch] at h; cases h
    | ok p =>
      obtain ⟨chain, p', k1⟩ := p
      rw [hch] at h
      dsimp only at h
      cases hw : explodeWalk src tm rest (p' + 1) k1 with
      | error e => rw [hw] at h; cases h
      | ok q =>
        obtain ⟨out', k2⟩ := q
        rw [hw] at h
        dsimp only at h
        have h1 := explodeChain_ok_ne_nil src tm 1000 _ pos k chain p' k1 hch
        have h2 := ih _ _ _ _ hw
        cases h
        simp only [List.length_cons, List.length_append]
        omega

/-- The explode/compound target test ignores the `order` field the walk
sets. -/
theorem explodeTargetTest_order (tgt : Option (String × ℚ)) (r : Res) (pos : ℤ) :
    explodeTargetTest tgt (r.mapCore fun c => { c with order := pos }) =
      explodeTargetTest tgt r := by
  cases tgt with
  | none => cases r <;> rfl
  | some p => cases r <;> rfl

theorem explodeWalk_length_strict (src : ℕ → ℚ) (tgt : Option (String × ℚ)) :
    ∀ (l : List Res) (pos : ℤ) (k : ℕ) (out : List Res) (k' : ℕ),
      explodeWalk src (explodeTargetTest tgt) l pos k = .ok (out, k') →
      (∃ r ∈ l, explodeTargetTest tgt r = true) → l.length < out.length := by
  intro l
  induction l with
  | nil => intro pos k out k' h hex; simp at hex
  | cons r rest ih =>
    intro pos k out k' h hex
    rw [explodeWalk] at h
    (try dsimp only at h)
    cases hch : explodeChain src (explodeTargetTest tgt) 1000
        (r.mapCore fun c => { c with order := pos }) pos k with
    | error e => rw [hch] at h; cases h
    | ok p =>
      obtain ⟨chain, p', k1⟩ := p
      rw [hch] at h
      dsimp only at h
      cases hw : explodeWalk src (explodeTargetTest tgt) rest (p' + 1) k1 with
      | error e => rw [hw] at h; cases h
      | ok q =>
        obtain ⟨out', k2⟩ := q
        rw [hw] at h
        dsimp only at h
        have h3 := explodeWalk_length_ge src (explodeTargetTest tgt) rest _ _ _ _ hw
        have h1' := explodeChain_ok_ne_nil src (explodeTargetTest tgt) 1000 _ pos k
          chain p' k1 hch
        by_cases htm : explodeTargetTest tgt r = true
        · have htm0 : explodeTargetTest tgt
              (r.mapCore fun c => { c with order := pos }) = true := by
            rw [explodeTargetTest_order]; exact htm
          have h2 := explodeChain_ok_two src (explodeTargetTest tgt) 999 _ pos k
            chain p' k1 htm0 hch
          cases h
          simp only [List.length_cons, List.length_append]
          omega
        · rcases hex with ⟨r', hr', htm'⟩
          rcases List.mem_cons.1 hr' with h1 | h1
          · subst h1; exact absurd htm' htm
          · have h2 := ih _ _ _ _ hw ⟨r', h1, htm'⟩
            cases h
            simp only [List.length_cons, List.length_append]
            omega

/-- One compound accumulation run: the entry matches, the next `m` freshly
drawn trials match, and the `(m+1)`-th does not (all drawn with the entry's
face count, at order `pos`); with enough cap budget the chain returns the
raw-roll total of the entry and all `m + 1` drawn trials, having consumed
`m + 1` draws. -/
theorem compoundChain_run (src : ℕ → ℚ) (tm : Res → Bool) (die : ℚ) (pos : ℤ) :
    ∀ (m fuel : ℕ) (r : Res) (acc : ℚ) (k : ℕ),
      m < fuel → r.ty = "roll" → r.dieV = die → tm r = true →
      (∀ i : ℕ, i < m → tm (generateDiceRoll die pos (src (k + i))) = true) →
      tm (generateDiceRoll die pos (src (k + m))) = false →
      compoundChain src tm fuel r acc pos k =
        .ok (acc + ((List.range (m + 1)).map
              (fun i => (generateDiceRoll die pos (src (k + i))).rollV)).sum,
             k + (m + 1)) := by
  intro m
  induction m with
  | zero =>
    intro fuel r acc k hfuel hty hdie htm _ hstop
    cases fuel with
    | zero => omega
    | succ n =>
      rw [compoundChain, if_pos htm, reRollRes, if_pos (by rw [hty]), hdie]
      dsimp only
      cases n with
      | zero => simp [compoundChain, show List.range 1 = [0] from by decide]
      | succ n' =>
        rw [compoundChain, if_neg (by simpa using hstop)]
        simp [show List.range 1 = [0] from by decide]
  | succ m ih =>
    intro fuel r acc k hfuel hty hdie htm hmatch hstop
    cases fuel with
    | zero => omega
    | succ n =>
      rw [compoundChain, if_pos htm, reRollRes, if_pos (by rw [hty]), hdie]
      dsimp only
      rw [ih n (generateDiceRoll die pos (src k)) (acc + (generateDiceRoll die pos (src k)).rollV)
            (k + 1) (by omega) rfl rfl
            (by have := hmatch 0 (by omega); simpa using this)
            (fun i hi => by
              have := hmatch (i + 1) (by omega)
              rw [show k + 1 + i = k + (i + 1) by omega]
              exact this)
            (by rw [show k + 1 + m = k + (m + 1) by omega]; exact hstop)]
      have hshift : ∀ (g : ℕ → ℚ) (n : ℕ),
          ((List.range (n + 1)).map g).sum =
            g 0 + ((List.range n).map (fun i => g (i + 1))).sum := by
        intro g n
        rw [List.range_succ_eq_map]
        simp [List.map_map, Function.comp_def]
      congr 1
      congr 1
      · rw [hshift (fun i => (generateDiceRoll die pos (src (k + i))).rollV) (m + 1)]
        (try dsimp only)
        rw [Nat.add_zero, add_assoc]
        congr 2
        congr 1
        apply List.map_congr_left
        intro i _
        rw [show k + 1 + i = k + (i + 1) by omega]
      · omega

theorem Res.mapCore_mapCore (f g : ResCore → ResCore) (r : Res) :
    (r.mapCore g).mapCore f = r.mapCore (fun c => f (g c)) := by
  cases r <;> rfl

/-- The trials an explode chain of `m + 1` draws appends after its trigger:
trial `i` is drawn at cursor `k + i` with order `pos + 1 + i`, and every
trial but the last (the one that stopped the chain) is flagged `explode`. -/
def explodeTrials (src : ℕ → ℚ) (die : ℚ) (pos : ℤ) (k m : ℕ) : List Res :=
  (List.range (m + 1)).map (fun i =>
    if i < m then
      (generateDiceRoll die (pos + 1 + (i : ℤ)) (src (k + i))).mapCore
        (fun c => { c with explode := true })
    else generateDiceRoll die (pos + 1 + (i : ℤ)) (src (k + i)))

theorem explodeTrials_shift (src : ℕ → ℚ) (die : ℚ) (pos : ℤ) (k m : ℕ) :
    explodeTrials src die pos k (m + 1) =
      (generateDiceRoll die (pos + 1) (src k)).mapCore
          (fun c => { c with explode := true }) ::
        explodeTrials src die (pos + 1) (k + 1) m := by
  rw [explodeTrials, explodeTrials, List.range_succ_eq_map, List.map_cons, List.map_map]
  congr 1
  · simp
  · apply List.map_congr_left
    intro i _
    simp only [Function.comp_def, Nat.succ_eq_add_one]
    rw [show k + (i + 1) = k + 1 + i by omega,
        show pos + 1 + ((i + 1 : ℕ) : ℤ) = pos + 1 + 1 + (i : ℤ) by push_cast; ring]
    simp only [Nat.add_lt_add_iff_right]

theorem explodeChain_run (src : ℕ → ℚ) (tm : Res → Bool) (die : ℚ) :
    ∀ (m fuel : ℕ) (r : Res) (pos : ℤ) (k : ℕ),
      m < fuel → r.ty = "roll" → r.dieV = die → tm r = true →
      (∀ i : ℕ, i < m →
        tm (generateDiceRoll die (pos + 1 + (i : ℤ)) (src (k + i))) = true) →
      tm (generateDiceRoll die (pos + 1 + (m : ℤ)) (src (k + m))) = false →
      explodeChain src tm fuel r pos k =
        .ok (r.mapCore (fun c => { c with explode := true }) ::
               explodeTrials src die pos k m,
             pos + 1 + (m : ℤ), k + (m + 1)) := by
  intro m
  induction m with
  | zero =>
    intro fuel r pos k hfuel hty hdie htm _ hstop
    simp only [Nat.cast_zero, add_zero, Nat.add_zero] at hstop
    cases fuel with
    | zero => omega
    | succ n =>
      rw [explodeChain, if_pos htm]
      (try dsimp only)
      rw [reRollRes,
          if_pos (by rw [Res.ty_mapCore]; exact hty),
          show (r.mapCore fun c => { c with explode := true }).dieV = r.dieV from
            by cases r <;> rfl, hdie]
      (try dsimp only)
      cases n with
      | zero =>
        rw [explodeChain]
        simp [explodeTrials, show List.range 1 = [0] from by decide]
      | succ n' =>
        rw [explodeChain, if_neg (by simpa using hstop)]
        simp [explodeTrials, show List.range 1 = [0] from by decide]
  | succ m ih =>
    intro fuel r pos k hfuel hty hdie htm hmatch hstop
    cases fuel with
    | zero => omega
    | succ n =>
      rw [explodeChain, if_pos htm]
      (try dsimp only)
      rw [reRollRes,
          if_pos (by rw [Res.ty_mapCore]; exact hty),
          show (r.mapCore fun c => { c with explode := true }).dieV = r.dieV from
            by cases r <;> rfl, hdie]
      (try dsimp only)
      rw [ih n (generateDiceRoll die (pos + 1) (src k)) (pos + 1) (k + 1) (by omega) rfl rfl
            (by have := hmatch 0 (by omega); simpa using this)
            (fun i hi => by
              have := hmatch (i + 1) (by omega)
              rw [show pos + 1 + 1 + (i : ℤ) = pos + 1 + ((i + 1 : ℕ) : ℤ) by push_cast; ring,
                  show k + 1 + i = k + (i + 1) by omega]
              exact this)
            (by rw [show pos + 1 + 1 + (m : ℤ) = pos + 1 + ((m + 1 : ℕ) : ℤ) by push_cast; ring,
                    show k + 1 + m = k + (m + 1) by omega]
                exact hstop)]
      rw [explodeTrials_shift,
          show pos + 1 + ((m + 1 : ℕ) : ℤ) = pos + 1 + 1 + (m : ℤ) by push_cast; ring,
          show k + (m + 1 + 1) = k + 1 + (m + 1) by omega]

/-- The total a compound run accumulates: the entry's own raw roll plus the
raw rolls of the `m + 1` trials drawn at cursors `k, …, k + m`. -/
def compoundTotal (src : ℕ → ℚ) (die : ℚ) (pos : ℤ) (k m : ℕ) (base : ℚ) : ℚ :=
  base + ((List.range (m + 1)).map
    (fun i => (generateDiceRoll die pos (src (k + i))).rollV)).sum

/-- **C7.**  Frame effects of compound versus explode on a trial pool with
a non-degenerate target: (i) compound returns a sequence of exactly the
input's length; (ii) explode strictly lengthens the sequence whenever at
least one entry passes the target test (the 1000-iteration cap never
prevents the first insertion, so no cap proviso is needed); (iii) on a
single matching entry, compound accumulates the raw rolls of the bonus
trials into the triggering entry's `value` and `roll` (drawn while they
keep matching, plus the final non-matching draw), leaving it flagged
`explode` — rather than inserting anything; (iv) on the same single
matching entry, explode instead inserts the freshly drawn trials
immediately after the triggering entry, in draw order. -/
theorem c7_compound_explode_frame :
    (∀ (src : ℕ → ℚ) (tgt : Option (String × ℚ)) (rolls : List Res) (k : ℕ)
       (out : List Res) (k' : ℕ),
      compoundMethodCore src tgt rolls k = .ok (out, k') →
      out.length = rolls.length) ∧
    (∀ (src : ℕ → ℚ) (tgt : Option (String × ℚ)) (rolls : List Res) (k : ℕ)
       (out : List Res) (k' : ℕ),
      explodeMethodCore src tgt rolls k = .ok (out, k') →
      (∃ r ∈ rolls, explodeTargetTest tgt r = true) →
      rolls.length < out.length) ∧
    (∀ (src : ℕ → ℚ) (tgt : Option (String × ℚ)) (r : Res) (pos : ℤ) (k m : ℕ),
      m + 1 ≤ 1000 → r.ty = "roll" → explodeTargetTest tgt r = true →
      (∀ i : ℕ, i < m →
        explodeTargetTest tgt (generateDiceRoll r.dieV (pos + 1) (src (k + i))) = true) →
      explodeTargetTest tgt (generateDiceRoll r.dieV (pos + 1) (src (k + m))) = false →
      compoundWalk src (explodeTargetTest tgt) [r] pos k =
        .ok ([r.mapCore (fun c =>
               { c with explode := true,
                        value := compoundTotal src r.dieV (pos + 1) k m r.rollV,
                        roll := compoundTotal src r.dieV (pos + 1) k m r.rollV })],
             k + (m + 1))) ∧
    (∀ (src : ℕ → ℚ) (tgt : Option (String × ℚ)) (r : Res) (pos : ℤ) (k m : ℕ),
      m + 1 ≤ 1000 → r.ty = "roll" → explodeTargetTest tgt r = true →
      (∀ i : ℕ, i < m →
        explodeTargetTest tgt
          (generateDiceRoll r.dieV (pos + 1 + (i : ℤ)) (src (k + i))) = true) →
      explodeTargetTest tgt
        (generateDiceRoll r.dieV (pos + 1 + (m : ℤ)) (src (k + m))) = false →
      explodeWalk src (explodeTargetTest tgt) [r] pos k =
        .ok (r.mapCore (fun c => { c with order := pos, explode := true }) ::
               explodeTrials src r.dieV pos k m,
             k + (m + 1))) := by
  refine ⟨?_, ?_, ?_, ?_⟩
  · intro src tgt rolls k out k' h
    cases rolls with
    | nil => cases h
    | cons r rest =>
      rw [compoundMethodCore] at h
      by_cases hg : (r.ty = "roll" && explodeProbe tgt 1 && explodeProbe tgt r.dieV) = true
      · rw [if_pos hg] at h; cases h
      · rw [if_neg hg] at h
        exact compoundWalk_length src (explodeTargetTest tgt) (r :: rest) 0 k out k' h
  · intro src tgt rolls k out k' h hex
    cases rolls with
    | nil => cases h
    | cons r rest =>
      rw [explodeMethodCore] at h
      by_cases hg : (r.ty = "roll" && explodeProbe tgt 1 && explodeProbe tgt r.dieV) = true
      · rw [if_pos hg] at h; cases h
      · rw [if_neg hg] at h
        exact explodeWalk_length_strict src tgt (r :: rest) 0 k out k' h hex
  · intro src tgt r pos k m hcap hty htm hmatch hstop
    rw [compoundWalk,
        compoundChain_run src (explodeTargetTest tgt) r.dieV (pos + 1) m 1000 r r.rollV k
          (by omega) hty rfl htm hmatch hstop]
    (try dsimp only)
    rw [compoundWalk]
    (try dsimp only)
    rw [if_pos htm, Res.mapCore_mapCore]
    rfl
  · intro src tgt r pos k m hcap hty htm hmatch hstop
    rw [explodeWalk]
    (try dsimp only)
    rw [explodeChain_run src (explodeTargetTest tgt) r.dieV m 1000
          (r.mapCore fun c => { c with order := pos }) pos k (by omega)
          (by rw [Res.ty_mapCore]; exact hty)
          (by cases r <;> rfl)
          (by rw [explodeTargetTest_order]; exact htm)
          hmatch hstop]
    (try dsimp only)
    rw [explodeWalk.eq_def]
    (try dsimp only)
    rw [List.append_nil, Res.mapCore_mapCore]

/-- The fresh trial `generateDiceRoll 6 o 0` (face count 6, zero draw):
raw roll 1, a critical failure. -/
theorem genD6Zero (o : ℤ) :
    generateDiceRoll 6 o 0 = .leaf { ty := "roll", value := 1, roll := 1, die := 6,
                                     order := o, critical := some "failure" } := by
  have hf : ((1 : ℚ)/2).floor = 0 := by
    rw [show ((1:ℚ)/2) = ((1:ℤ) : ℚ) / ((2:ℕ) : ℚ) by norm_num,
        show ∀ q : ℚ, q.floor = ⌊q⌋ from fun q => rfl, Rat.floor_intCast_div_natCast]
    decide
  norm_num [generateDiceRoll, jsRound, hf]

/-- Witness for C7: on the single trial with raw face 2 of a d6 and the
explicit target `= 2`, compound keeps length 1 while accumulating
`2 + 1 = 3` into the entry, and explode grows the pool to length 2. -/
theorem c7_compound_explode_frame_witness :
    (∃ out, compoundMethodCore (constSrc []) (some ("=", 2)) [mkT 2 0] 0 = .ok (out, 1) ∧
       out.length = 1) ∧
    (∃ out, explodeMethodCore (constSrc []) (some ("=", 2)) [mkT 2 0] 0 = .ok (out, 1) ∧
       1 < out.length) := by
  have hgen : ∀ o : ℤ, generateDiceRoll (mkT 2 0).dieV o (constSrc [] 0) =
      .leaf { ty := "roll", value := 1, roll := 1, die := 6, order := o,
              critical := some "failure" } := by
    intro o
    rw [show (mkT 2 0).dieV = 6 from rfl, show constSrc [] 0 = 0 from rfl]
    exact genD6Zero o
  constructor
  · have hrun := c7_compound_explode_frame.2.2.1 (constSrc []) (some ("=", 2)) (mkT 2 0)
      0 0 0 (by omega) rfl (by decide)
      (fun i hi => absurd hi (by omega))
      (by simp only [Nat.add_zero, zero_add]; rw [hgen 1]; decide)
    have hmc : compoundMethodCore (constSrc []) (some ("=", 2)) [mkT 2 0] 0 =
        .ok ([(mkT 2 0).mapCore (fun c =>
               { c with explode := true,
                        value := compoundTotal (constSrc []) (mkT 2 0).dieV (0 + 1) 0 0
                                   (mkT 2 0).rollV,
                        roll := compoundTotal (constSrc []) (mkT 2 0).dieV (0 + 1) 0 0
                                   (mkT 2 0).rollV })], 1) := by
      rw [compoundMethodCore, if_neg (by decide)]
      rw [show (0 : ℕ) + (0 + 1) = 1 from rfl] at hrun
      exact hrun
    exact ⟨_, hmc, rfl⟩
  · have hexp := c7_compound_explode_frame.2.2.2 (constSrc []) (some ("=", 2)) (mkT 2 0)
      0 0 0 (by omega) rfl (by decide)
      (fun i hi => absurd hi (by omega))
      (by simp only [Nat.cast_zero, add_zero, Nat.add_zero, zero_add]
          rw [hgen 1]; decide)
    have happ : explodeMethodCore (constSrc []) (some ("=", 2)) [mkT 2 0] 0 =
        .ok ((mkT 2 0).mapCore (fun c => { c with order := 0, explode := true }) ::
               explodeTrials (constSrc []) (mkT 2 0).dieV 0 0 0, 1) := by
      rw [explodeMethodCore, if_neg (by decide)]
      rw [show (0 : ℕ) + (0 + 1) = 1 from rfl] at hexp
      exact hexp
    refine ⟨_, happ, ?_⟩
    have h2 := c7_compound_explode_frame.2.1 (constSrc []) (some ("=", 2)) [mkT 2 0] 0 _ 1
      happ ⟨mkT 2 0, List.mem_cons_self _ _, by decide⟩
    exact h2


/-! ## C6: reroll-once versus plain reroll -/

/-- The replacements a plain-reroll chain of `m + 1` draws leaves after its
trigger: replacement `i` is drawn at cursor `k + i` with order `pos + 1 + i`,
and every replacement but the last (the one whose face no longer matched) is
itself marked `reroll := true, valid := false`. -/
def rerollTrials (src : ℕ → ℚ) (die : ℚ) (pos : ℤ) (k m : ℕ) : List Res :=
  (List.range (m + 1)).map (fun i =>
    if i < m then
      (generateDiceRoll die (pos + 1 + (i : ℤ)) (src (k + i))).mapCore
        (fun c => { c with reroll := true, valid := false })
    else generateDiceRoll die (pos + 1 + (i : ℤ)) (src (k + i)))

theorem rerollTrials_shift (src : ℕ → ℚ) (die : ℚ) (pos : ℤ) (k m : ℕ) :
    rerollTrials src die pos k (m + 1) =
      (generateDiceRoll die (pos + 1) (src k)).mapCore
          (fun c => { c with reroll := true, valid := false }) ::
        rerollTrials src die (pos + 1) (k + 1) m := by
  rw [rerollTrials, rerollTrials, List.range_succ_eq_map, List.map_cons, List.map_map]
  congr 1
  · simp
  · apply List.map_congr_left
    intro i _
    simp only [Function.comp_def, Nat.succ_eq_add_one]
    rw [show k + (i + 1) = k + 1 + i by omega,
        show pos + 1 + ((i + 1 : ℕ) : ℤ) = pos + 1 + 1 + (i : ℤ) by push_cast; ring]
    simp only [Nat.add_lt_add_iff_right]

theorem rerollChain_run (src : ℕ → ℚ) (tm : ℚ → Bool) (die : ℚ) :
    ∀ (m fuel : ℕ) (r : Res) (pos : ℤ) (k : ℕ),
      m < fuel → r.ty = "roll" → r.dieV = die → tm r.rollV = true →
      (∀ i : ℕ, i < m →
        tm (generateDiceRoll die (pos + 1 + (i : ℤ)) (src (k + i))).rollV = true) →
      tm (generateDiceRoll die (pos + 1 + (m : ℤ)) (src (k + m))).rollV = false →
      rerollChain src tm fuel r pos k =
        .ok (r.mapCore (fun c => { c with reroll := true, valid := false }) ::
               rerollTrials src die pos k m,
             pos + 1 + (m : ℤ), k + (m + 1)) := by
  intro m
  induction m with
  | zero =>
    intro fuel r pos k hfuel hty hdie htm _ hstop
    simp only [Nat.cast_zero, add_zero, Nat.add_zero] at hstop
    cases fuel with
    | zero => omega
    | succ n =>
      rw [rerollChain, if_pos htm]
      (try dsimp only)
      rw [reRollRes,
          if_pos (by rw [Res.ty_mapCore]; exact hty),
          show (r.mapCore fun c => { c with reroll := true, valid := false }).dieV = r.dieV
            from by cases r <;> rfl, hdie]
      (try dsimp only)
      rw [rerollChain.eq_def]
      simp [hstop, rerollTrials, show List.range 1 = [0] from by decide]
  | succ m ih =>
    intro fuel r pos k hfuel hty hdie htm hmatch hstop
    cases fuel with
    | zero => omega
    | succ n =>
      rw [rerollChain, if_pos htm]
      (try dsimp only)
      rw [reRollRes,
          if_pos (by rw [Res.ty_mapCore]; exact hty),
          show (r.mapCore fun c => { c with reroll := true, valid := false }).dieV = r.dieV
            from by cases r <;> rfl, hdie]
      (try dsimp only)
      rw [ih n (generateDiceRoll die (pos + 1) (src k)) (pos + 1) (k + 1) (by omega) rfl rfl
            (by have := hmatch 0 (by omega); simpa using this)
            (fun i hi => by
              have := hmatch (i + 1) (by omega)
              rw [show pos + 1 + 1 + (i : ℤ) = pos + 1 + ((i + 1 : ℕ) : ℤ) by push_cast; ring,
                  show k + 1 + i = k + (i + 1) by omega]
              exact this)
            (by rw [show pos + 1 + 1 + (m : ℤ) = pos + 1 + ((m + 1 : ℕ) : ℤ) by push_cast; ring,
                    show k + 1 + m = k + (m + 1) by omega]
                exact hstop)]
      rw [rerollTrials_shift,
          show pos + 1 + ((m + 1 : ℕ) : ℤ) = pos + 1 + 1 + (m : ℤ) by push_cast; ring,
          show k + (m + 1 + 1) = k + 1 + (m + 1) by omega]

/-- **C6.**  Reroll-once versus plain reroll on standard-die trial pools:
(i) a reroll-once pass over any pool of standard trials inserts exactly one
replacement per matching original entry — the output length grows by the
number of matching originals and exactly that many floats are drawn, so a
replacement is never itself replaced; (ii) on a single matching entry,
reroll-once returns precisely the original marked `reroll := true,
valid := false` followed by one fresh replacement — with no hypothesis on
the replacement's face, so the shape is the same even when the replacement
still matches the target; (iii) plain reroll on a single matching entry
keeps marking and replacing the current replacement while its face value
matches: for every run length `m` (arbitrary, not capped at 1000 — any
`fuel > m` gives the same result) it returns the original and all `m`
intermediate replacements marked, followed by the final non-matching
replacement, drawing `m + 1` floats. -/
theorem c6_reroll_once_vs_reroll :
    (∀ (src : ℕ → ℚ) (tm : ℚ → Bool) (rolls : List Res) (pos : ℤ) (k : ℕ)
       (out : List Res) (k' : ℕ),
      (∀ r ∈ rolls, r.ty = "roll") →
      rerollOnceWalk src tm rolls pos k = .ok (out, k') →
      out.length = rolls.length + rolls.countP (fun r => tm r.rollV) ∧
      k' = k + rolls.countP (fun r => tm r.rollV)) ∧
    (∀ (src : ℕ → ℚ) (tm : ℚ → Bool) (r : Res) (pos : ℤ) (k : ℕ),
      r.ty = "roll" → tm r.rollV = true →
      rerollOnceWalk src tm [r] pos k =
        .ok ([r.mapCore (fun c => { c with reroll := true, valid := false }),
              generateDiceRoll r.dieV (pos + 1) (src k)], k + 1)) ∧
    (∀ (src : ℕ → ℚ) (tm : ℚ → Bool) (die : ℚ) (m fuel : ℕ) (r : Res) (pos : ℤ) (k : ℕ),
      m < fuel → r.ty = "roll" → r.dieV = die → tm r.rollV = true →
      (∀ i : ℕ, i < m →
        tm (generateDiceRoll die (pos + 1 + (i : ℤ)) (src (k + i))).rollV = true) →
      tm (generateDiceRoll die (pos + 1 + (m : ℤ)) (src (k + m))).rollV = false →
      rerollWalk src tm fuel [r] pos k =
        .ok (r.mapCore (fun c => { c with reroll := true, valid := false }) ::
               rerollTrials src die pos k m,
             k + (m + 1))) := by
  refine ⟨?_, ?_, ?_⟩
  · intro src tm rolls
    induction rolls with
    | nil =>
      intro pos k out k' _ h
      rw [rerollOnceWalk] at h
      cases h
      simp
    | cons r rest ih =>
      intro pos k out k' hall h
      rw [rerollOnceWalk] at h
      by_cases htm : tm r.rollV = true
      · rw [if_pos htm] at h
        (try dsimp only at h)
        rw [reRollRes,
            if_pos (by rw [Res.ty_mapCore]; exact hall r (List.mem_cons_self r rest))] at h
        (try dsimp only at h)
        cases heq : rerollOnceWalk src tm rest (pos + 2) (k + 1) with
        | error e => rw [heq] at h; cases h
        | ok p =>
          obtain ⟨out', k''⟩ := p
          rw [heq] at h
          (try dsimp only at h)
          obtain ⟨hlen, hk⟩ := ih (pos + 2) (k + 1) out' k''
            (fun x hx => hall x (List.mem_cons_of_mem r hx)) heq
          have hcnt : (r :: rest).countP (fun x => tm x.rollV) =
              rest.countP (fun x => tm x.rollV) + 1 := by
            simp [List.countP_cons, htm]
          cases h
          refine ⟨?_, ?_⟩
          · simp only [List.length_cons, hlen, hcnt]
            omega
          · simp only [hk, hcnt]
            omega
      · rw [if_neg htm] at h
        (try dsimp only at h)
        cases heq : rerollOnceWalk src tm rest (pos + 1) k with
        | error e => rw [heq] at h; cases h
        | ok p =>
          obtain ⟨out', k''⟩ := p
          rw [heq] at h
          (try dsimp only at h)
          obtain ⟨hlen, hk⟩ := ih (pos + 1) k out' k''
            (fun x hx => hall x (List.mem_cons_of_mem r hx)) heq
          have hcnt : (r :: rest).countP (fun x => tm x.rollV) =
              rest.countP (fun x => tm x.rollV) := by
            simp [List.countP_cons, htm]
          cases h
          refine ⟨?_, ?_⟩
          · simp only [List.length_cons, hlen, hcnt]
            omega
          · simp only [hk, hcnt]
  · intro src tm r pos k hty htm
    rw [rerollOnceWalk, if_pos htm]
    (try dsimp only)
    rw [reRollRes,
        if_pos (by rw [Res.ty_mapCore]; exact hty),
        show (r.mapCore fun c => { c with reroll := true, valid := false }).dieV = r.dieV
          from by cases r <;> rfl]
    (try dsimp only)
    rw [rerollOnceWalk.eq_def]
  · intro src tm die m fuel r pos k hfuel hty hdie htm hmatch hstop
    rw [rerollWalk]
    (try dsimp only)
    rw [rerollChain_run src tm die m fuel r pos k hfuel hty hdie htm hmatch hstop]
    (try dsimp only)
    rw [rerollWalk.eq_def]
    (try dsimp only)
    rw [List.append_nil]


/-- Witness for C6: on the single d6 trial with face 2 under the explicit
target `= 2`, reroll-once marks the trial and inserts exactly one
replacement (drawing one float), and plain reroll — here with the match run
stopping at once because the replacement shows face 1 — returns the marked
trial followed by its replacement run. -/
theorem c6_reroll_once_vs_reroll_witness :
    rerollOnceWalk (constSrc []) (rerollTargetTest (some ("=", 2))) [mkT 2 0] 0 0 =
      .ok ([(mkT 2 0).mapCore (fun c => { c with reroll := true, valid := false }),
            generateDiceRoll (mkT 2 0).dieV 1 (constSrc [] 0)], 1) ∧
    rerollWalk (constSrc []) (rerollTargetTest (some ("=", 2))) 1000000 [mkT 2 0] 0 0 =
      .ok ((mkT 2 0).mapCore (fun c => { c with reroll := true, valid := false }) ::
             rerollTrials (constSrc []) (mkT 2 0).dieV 0 0 0, 1) := by
  have hgen : generateDiceRoll (mkT 2 0).dieV 1 (constSrc [] 0) =
      .leaf { ty := "roll", value := 1, roll := 1, die := 6, order := 1,
              critical := some "failure" } := by
    rw [show (mkT 2 0).dieV = 6 from rfl, show constSrc [] 0 = 0 from rfl]
    exact genD6Zero 1
  constructor
  · exact c6_reroll_once_vs_reroll.2.1 (constSrc []) (rerollTargetTest (some ("=", 2)))
      (mkT 2 0) 0 0 rfl (by decide)
  · exact c6_reroll_once_vs_reroll.2.2 (constSrc []) (rerollTargetTest (some ("=", 2)))
      ((mkT 2 0).dieV) 0 1000000 (mkT 2 0) 0 0 (by omega) rfl rfl (by decide)
      (fun i hi => absurd hi (by omega))
      (by simp only [Nat.cast_zero, add_zero, Nat.add_zero, zero_add]
          rw [hgen]; decide)


/-! ## C10: replacement results are unconditionally successful -/

set_option maxHeartbeats 4000000 in
/-- **C10.**  A replacement node's result always carries
`success = some true` and `valid = true`, regardless of the child's result
and although no success/failure target was applied — unlike every other
node variant evaluated without targets, whose `success` is the
not-applicable value `none`: number, dice-expression, math-expression and
math-function results, group results without modifiers, and die results
without a target list or match spec all have `success = none`. -/
theorem c10_replacement_success :
    (∀ (ctx : Ctx) (name : String) (e : AST) (k : ℕ) (r : Res) (k' : ℕ),
      rollType ctx (AST.repl name e) k = .ok (r, k') →
      r.core.success = some true ∧ r.valid = true) ∧
    (∀ (ctx : Ctx) (v : ℚ) (k : ℕ) (r : Res) (k' : ℕ),
      rollType ctx (AST.num v) k = .ok (r, k') → r.core.success = none) ∧
    (∀ (ctx : Ctx) (hd : AST) (ops : List (String × AST)) (k : ℕ) (r : Res) (k' : ℕ),
      rollType ctx (AST.diceExpr hd ops) k = .ok (r, k') → r.core.success = none) ∧
    (∀ (ctx : Ctx) (hd : AST) (ops : List (String × AST)) (k : ℕ) (r : Res) (k' : ℕ),
      rollType ctx (AST.mathExpr hd ops) k = .ok (r, k') → r.core.success = none) ∧
    (∀ (ctx : Ctx) (op : String) (e : AST) (k : ℕ) (r : Res) (k' : ℕ),
      rollType ctx (AST.mathFunc op e) k = .ok (r, k') → r.core.success = none) ∧
    (∀ (ctx : Ctx) (ts : List AST) (k : ℕ) (r : Res) (k' : ℕ),
      rollType ctx (AST.group ts none) k = .ok (r, k') → r.core.success = none) ∧
    (∀ (ctx : Ctx) (c : AST) (s : Option AST) (m : Option (List ModT))
       (so : Option Bool) (k : ℕ) (r : Res) (k' : ℕ),
      rollType ctx (AST.die c s m none none so) k = .ok (r, k') →
      r.core.success = none) := by
  refine ⟨?_, ?_, ?_, ?_, ?_, ?_, ?_⟩
  · intro ctx name e k r k' h
    rw [rollType] at h
    (try dsimp only at h)
    rw [doReplacement] at h
    repeat' first
      | split at h
      | (dsimp only at h)
    all_goals cases h
    all_goals exact ⟨rfl, rfl⟩
  · intro ctx v k r k' h
    rw [rollType] at h
    (try dsimp only at h)
    cases h
    rfl
  · intro ctx hd ops k r k' h
    rw [rollType] at h
    (try dsimp only at h)
    rw [rollDiceExpr] at h
    repeat' first
      | split at h
      | (dsimp only at h)
    all_goals cases h
    all_goals rfl
  · intro ctx hd ops k r k' h
    rw [rollType] at h
    (try dsimp only at h)
    rw [rollExpression] at h
    repeat' first
      | split at h
      | (dsimp only at h)
    all_goals cases h
    all_goals rfl
  · intro ctx op e k r k' h
    rw [rollType] at h
    (try dsimp only at h)
    rw [rollFunction] at h
    repeat' first
      | split at h
      | (dsimp only at h)
    all_goals cases h
    all_goals rfl
  · intro ctx ts k r k' h
    rw [rollType] at h
    (try dsimp only at h)
    rw [rollGroup] at h
    repeat' first
      | (rw [Except.bind.eq_def] at h)
      | (simp only [Except.bind] at h)
      | (dsimp only at h)
    repeat' first
      | split at h
      | (simp only [Except.bind] at h)
      | (dsimp only at h)
    all_goals cases h
    all_goals first
      | rfl
      | simp_all
  · intro ctx c s m so k r k' h
    rw [rollType] at h
    (try dsimp only at h)
    rw [rollDie] at h
    repeat' first
      | (rw [Except.bind.eq_def] at h)
      | (simp only [Except.bind] at h)
      | (dsimp only at h)
    repeat' first
      | split at h
      | (simp only [Except.bind] at h)
      | (dsimp only at h)
    all_goals cases h
    all_goals first
      | rfl
      | simp_all


/-- Witness for C10: with the identity resolver, evaluating the replacement
node `id(3)` yields `success = some true, valid = true`, while the bare
number node `3` evaluates with `success = none`. -/
theorem c10_replacement_success_witness :
    (∃ r : Res, rollType (mkCtx []) (AST.repl "id" (AST.num 3)) 0 = .ok (r, 0) ∧
       r.core.success = some true ∧ r.valid = true) ∧
    (∃ r : Res, rollType (mkCtx []) (AST.num 3) 0 = .ok (r, 0) ∧
       r.core.success = none) := by
  have hnum : rollType (mkCtx []) (AST.num 3) 0 =
      .ok (.leaf { ty := "number", value := 3, success := none, successes := 0,
                   failures := 0, valid := true, order := 0 }, 0) := by
    rw [rollType]
  have hrepl : rollType (mkCtx []) (AST.repl "id" (AST.num 3)) 0 =
      .ok (.agg { ty := "replacement", value := 3, success := some true, successes := 0,
                  failures := 0, valid := true, order := 0, op := "custom", called := "id" }
            [.leaf { ty := "number", value := 3, success := none, successes := 0,
                     failures := 0, valid := true, order := 0 }], 0) := by
    rw [rollType]
    (try dsimp only)
    rw [doReplacement, hnum]
    (try dsimp only)
    rfl
  refine ⟨⟨_, hrepl, ?_⟩, ⟨_, hnum, ?_⟩⟩
  · exact c10_replacement_success.1 (mkCtx []) "id" (AST.num 3) 0 _ 0 hrepl
  · exact c10_replacement_success.2.1 (mkCtx []) 3 0 _ 0 hnum


/-! ## C4: aggregate values -/

/-- Every successful evaluation returns a node with `valid = true` at the
top: each constructor of the evaluator builds its result with a literal
`valid := true` (and inline nodes delegate). -/
theorem rollType_valid (ctx : Ctx) :
    ∀ (n : ℕ) (t : AST), sizeOf t ≤ n → ∀ (k : ℕ) (r : Res) (k' : ℕ),
      rollType ctx t k = .ok (r, k') → r.valid = true := by
  intro n
  induction n with
  | zero =>
    intro t ht
    exfalso
    have h1 : 0 < sizeOf t := by cases t <;> simp_arith
    omega
  | succ n ih =>
    intro t ht k r k' h
    cases t with
    | num v =>
      rw [rollType] at h
      cases h
      rfl
    | die c s m tg mt so =>
      rw [rollType] at h
      (try dsimp only at h)
      rw [rollDie] at h
      simp only [Except.bind.eq_def] at h
      repeat' first
        | split at h
        | (dsimp only at h)
      all_goals cases h
      all_goals rfl
    | diceExpr hd ops =>
      rw [rollType] at h
      (try dsimp only at h)
      rw [rollDiceExpr] at h
      repeat' first
        | split at h
        | (dsimp only at h)
      all_goals cases h
      all_goals rfl
    | mathExpr hd ops =>
      rw [rollType] at h
      (try dsimp only at h)
      rw [rollExpression] at h
      repeat' first
        | split at h
        | (dsimp only at h)
      all_goals cases h
      all_goals rfl
    | group ts mods =>
      rw [rollType] at h
      (try dsimp only at h)
      rw [rollGroup] at h
      simp only [Except.bind.eq_def] at h
      repeat' first
        | split at h
        | (dsimp only at h)
      all_goals cases h
      all_goals rfl
    | mathFunc op e =>
      rw [rollType] at h
      (try dsimp only at h)
      rw [rollFunction] at h
      repeat' first
        | split at h
        | (dsimp only at h)
      all_goals cases h
      all_goals rfl
    | repl name e =>
      rw [rollType] at h
      (try dsimp only at h)
      rw [doReplacement] at h
      repeat' first
        | split at h
        | (dsimp only at h)
      all_goals cases h
      all_goals rfl
    | inline e =>
      rw [rollType] at h
      (try dsimp only at h)
      refine ih e ?_ k r k' h
      have hs : sizeOf (AST.inline e) = 1 + sizeOf e := by simp
      omega

/-- `validSum` over an all-valid pool is the plain sum of values. -/
theorem validSum_all_valid :
    ∀ (l : List Res), (∀ x ∈ l, x.valid = true) →
      ∀ acc : ℚ, l.foldl (fun s r => if r.valid then s + r.value else s) acc =
        acc + (l.map Res.value).sum := by
  intro l
  induction l with
  | nil => intro _ acc; simp
  | cons a t ih =>
    intro hval acc
    rw [List.foldl_cons, if_pos (hval a (List.mem_cons_self a t)),
        ih (fun x hx => hval x (List.mem_cons_of_mem a hx)) (acc + a.value)]
    simp [add_assoc]

/-- `matchCounts` only reads the raw face `roll`, so a pointwise rewrite
that preserves it (such as the matched-marking) leaves the counts alone. -/
theorem matchCounts_map (g : Res → Res) (hg : ∀ x, (g x).rollV = x.rollV) :
    ∀ (l : List Res) (acc : List (ℚ × ℚ)),
      (l.map g).foldl (fun m r => assocBump m r.rollV) acc =
        l.foldl (fun m r => assocBump m r.rollV) acc := by
  intro l
  induction l with
  | nil => intro acc; rfl
  | cons a t ih =>
    intro acc
    rw [List.map_cons, List.foldl_cons, List.foldl_cons, hg a, ih]


theorem matchCounts_map_eq (g : Res → Res) (hg : ∀ x, (g x).rollV = x.rollV)
    (l : List Res) : matchCounts (l.map g) = matchCounts l := by
  rw [matchCounts, matchCounts]
  exact matchCounts_map g hg l []

/-- Marking matched entries leaves the match-stage counts unchanged. -/
theorem matchCounts_mark (L : List ℚ) (l : List Res) :
    matchCounts (l.map fun r =>
      if decide (r.rollV ∈ L) then
        r.mapCore (fun c => { c with matched := true }) else r) = matchCounts l := by
  refine matchCounts_map_eq _ ?_ l
  intro x
  by_cases hx : decide (x.rollV ∈ L) = true
  · rw [if_pos hx]; cases x <;> rfl
  · rw [if_neg hx]

/-- Characterization of the math-expression fold: the recorded operator list
is the tails' operators, and the value is the left fold of `applyMathOp`
over the operator/value pairs; every tail result is valid. -/
theorem mathExprFold_run (ctx : Ctx) :
    ∀ (ops : List (String × AST)) (acc : ℚ) (k : ℕ) (v : ℚ) (trs : List Res)
      (opsS : List String) (k2 : ℕ),
      mathExprFold ctx ops acc k = .ok (v, trs, opsS, k2) →
      opsS = ops.map Prod.fst ∧ trs.length = ops.length ∧
      v = (opsS.zip (trs.map Res.value)).foldl
            (fun a p => applyMathOp a p.1 p.2) acc ∧
      (∀ x ∈ trs, x.valid = true) := by
  intro ops
  induction ops with
  | nil =>
    intro acc k v trs opsS k2 h
    rw [mathExprFold] at h
    cases h
    simp
  | cons p rest ih =>
    intro acc k v trs opsS k2 h
    obtain ⟨op, tail⟩ := p
    rw [mathExprFold] at h
    cases htr : rollType ctx tail k with
    | error e => rw [htr] at h; cases h
    | ok tk =>
      obtain ⟨tr, k1⟩ := tk
      rw [htr] at h
      (try dsimp only at h)
      cases hfr : mathExprFold ctx rest (applyMathOp acc op tr.value) k1 with
      | error e => rw [hfr] at h; cases h
      | ok q =>
        obtain ⟨v2, q2⟩ := q
        obtain ⟨trs2, q3⟩ := q2
        obtain ⟨opsS2, k22⟩ := q3
        rw [hfr] at h
        (try dsimp only at h)
        cases h
        obtain ⟨hops, hlen, hv, hval⟩ := ih _ _ _ _ _ _ hfr
        refine ⟨by simp [hops], by simp [hlen], ?_, ?_⟩
        · rw [List.map_cons, List.zip_cons_cons, List.foldl_cons]
          exact hv
        · intro x hx
          rcases List.mem_cons.1 hx with h1 | h2
          · subst h1
            exact rollType_valid ctx (sizeOf tail) tail le_rfl k x k1 htr
          · exact hval x h2

/-- The dice-expression fold with only `+` operators accumulates the plain
sum of the (order-renumbered, still valid) tail values. -/
theorem diceExprFold_run (ctx : Ctx) :
    ∀ (ops : List (String × AST)) (acc : ℚ) (idx k : ℕ) (v : ℚ) (trs : List Res)
      (opsS : List String) (k2 : ℕ),
      diceExprFold ctx ops acc idx k = .ok (v, trs, opsS, k2) →
      (∀ p ∈ ops, p.1 = "+") →
      v = acc + (trs.map Res.value).sum ∧ (∀ x ∈ trs, x.valid = true) := by
  intro ops
  induction ops with
  | nil =>
    intro acc idx k v trs opsS k2 h _
    rw [diceExprFold] at h
    cases h
    simp
  | cons p rest ih =>
    intro acc idx k v trs opsS k2 h hplus
    obtain ⟨op, tail⟩ := p
    have hop : op = "+" := hplus (op, tail) (List.mem_cons_self _ _)
    subst hop
    rw [diceExprFold] at h
    cases htr : rollType ctx tail k with
    | error e => rw [htr] at h; cases h
    | ok tk =>
      obtain ⟨tr, k1⟩ := tk
      rw [htr] at h
      (try dsimp only at h)
      rw [if_pos (rfl : ("+" : String) = "+")] at h
      cases hfr : diceExprFold ctx rest
          (acc + (tr.mapCore fun c => { c with order := (idx : ℤ) }).value)
          (idx + 1) k1 with
      | error e => rw [hfr] at h; cases h
      | ok q =>
        obtain ⟨v2, q2⟩ := q
        obtain ⟨trs2, q3⟩ := q2
        obtain ⟨opsS2, k22⟩ := q3
        rw [hfr] at h
        (try dsimp only at h)
        cases h
        obtain ⟨hv, hval⟩ := ih _ _ _ _ _ _ _ hfr
          (fun x hx => hplus x (List.mem_cons_of_mem _ hx))
        refine ⟨?_, ?_⟩
        · rw [hv, List.map_cons, List.sum_cons]
          ring
        · intro x hx
          rcases List.mem_cons.1 hx with h1 | h2
          · subst h1
            have h3 : (tr.mapCore fun c => { c with order := (idx : ℤ) }).valid
                = tr.valid := by cases tr <;> rfl
            rw [h3]
            exact rollType_valid ctx (sizeOf tail) tail le_rfl k tr k1 htr
          · exact hval x h2

/-- **C4.**  How each aggregate's `value` actually relates to its children:
(i) a die result with no match-count stage (with or without modifiers,
targets, or sorting) has `value` equal to the sum of its valid children —
with targets applied this is the sum over the per-entry rewritten
`successes − failures` values, not a die-level `successes − failures`
override; (ii) every group result (with or without modifiers or group
targets) has `value` equal to the sum of its valid children; (iii) a
math-expression's value is the left fold of its recorded operators over the
children's values — equal to the valid-children sum only in special cases
such as (iv) a dice-expression whose operators are all `+`; (v) with a
match-count override, the die's value is the number of distinct face values
whose multiplicity passes the minimum, computable from the children's counts
(the `matched` marking does not disturb them). -/
theorem c4_aggregate_value_amended :
    (∀ (ctx : Ctx) (c : AST) (s : Option AST) (m tg : Option (List ModT))
       (so : Option Bool) (k : ℕ) (r : Res) (k' : ℕ),
      rollType ctx (AST.die c s m tg none so) k = .ok (r, k') →
      r.value = validSum r.children) ∧
    (∀ (ctx : Ctx) (ts : List AST) (mods : Option (List ModT)) (k : ℕ)
       (r : Res) (k' : ℕ),
      rollType ctx (AST.group ts mods) k = .ok (r, k') →
      r.value = validSum r.children) ∧
    (∀ (ctx : Ctx) (hd : AST) (ops : List (String × AST)) (k : ℕ)
       (r : Res) (k' : ℕ),
      rollType ctx (AST.mathExpr hd ops) k = .ok (r, k') →
      ∃ hr tl, r.children = hr :: tl ∧
        r.value = (r.core.ops.zip (tl.map Res.value)).foldl
          (fun a p => applyMathOp a p.1 p.2) hr.value) ∧
    (∀ (ctx : Ctx) (hd : AST) (ops : List (String × AST)) (k : ℕ)
       (r : Res) (k' : ℕ),
      (∀ p ∈ ops, p.1 = "+") →
      rollType ctx (AST.diceExpr hd ops) k = .ok (r, k') →
      r.value = validSum r.children) ∧
    (∀ (ctx : Ctx) (c : AST) (s : Option AST) (m tg : Option (List ModT))
       (minVal : ℚ) (k : ℕ) (r : Res) (k' : ℕ),
      rollType ctx (AST.die c s m tg (some (MatchSpec.mk minVal true none)) none) k
        = .ok (r, k') →
      r.value = (((matchCounts r.children).filter fun p =>
        decide (minVal ≤ p.2)).length : ℚ)) := by
  refine ⟨?_, ?_, ?_, ?_, ?_⟩
  · intro ctx c s m tg so k r k' h
    rw [rollType] at h
    (try dsimp only at h)
    rw [rollDie] at h
    simp only [Except.bind.eq_def] at h
    repeat' first
      | split at h
      | (dsimp only at h)
    all_goals cases h
    all_goals first
      | rfl
      | contradiction
  · intro ctx ts mods k r k' h
    rw [rollType] at h
    (try dsimp only at h)
    rw [rollGroup] at h
    simp only [Except.bind.eq_def] at h
    repeat' first
      | split at h
      | (dsimp only at h)
    all_goals cases h
    all_goals first
      | rfl
      | contradiction
  · intro ctx hd ops k r k' h
    rw [rollType] at h
    (try dsimp only at h)
    rw [rollExpression] at h
    cases hhd : rollType ctx hd k with
    | error e => rw [hhd] at h; cases h
    | ok hk =>
      obtain ⟨hr, k1⟩ := hk
      rw [hhd] at h
      (try dsimp only at h)
      cases hfo : mathExprFold ctx ops hr.value k1 with
      | error e => rw [hfo] at h; cases h
      | ok q =>
        obtain ⟨v, q2⟩ := q
        obtain ⟨trs, q3⟩ := q2
        obtain ⟨opsS, k2⟩ := q3
        rw [hfo] at h
        (try dsimp only at h)
        cases h
        obtain ⟨hops, hlen, hv, hval⟩ :=
          mathExprFold_run ctx ops hr.value k1 _ _ _ _ hfo
        exact ⟨hr, trs, rfl, hv⟩
  · intro ctx hd ops k r k' hplus h
    rw [rollType] at h
    (try dsimp only at h)
    rw [rollDiceExpr] at h
    cases hhd : rollType ctx hd k with
    | error e => rw [hhd] at h; cases h
    | ok hk =>
      obtain ⟨hr, k1⟩ := hk
      rw [hhd] at h
      (try dsimp only at h)
      cases hfo : diceExprFold ctx ops hr.value 0 k1 with
      | error e => rw [hfo] at h; cases h
      | ok q =>
        obtain ⟨v, q2⟩ := q
        obtain ⟨trs, q3⟩ := q2
        obtain ⟨opsS, k2⟩ := q3
        rw [hfo] at h
        (try dsimp only at h)
        cases h
        obtain ⟨hv, hval⟩ :=
          diceExprFold_run ctx ops hr.value 0 k1 _ _ _ _ hfo hplus
        have hvalid : ∀ x ∈ hr :: trs, x.valid = true := by
          intro x hx
          rcases List.mem_cons.1 hx with h1 | h2
          · subst h1
            exact rollType_valid ctx (sizeOf hd) hd le_rfl k x k1 hhd
          · exact hval x h2
        show v = validSum (hr :: trs)
        rw [validSum, validSum_all_valid (hr :: trs) hvalid 0, hv]
        simp
  · intro ctx c s m tg minVal k r k' h
    rw [rollType] at h
    (try dsimp only at h)
    rw [rollDie] at h
    simp only [Except.bind.eq_def] at h
    repeat' first
      | split at h
      | (dsimp only at h)
    all_goals cases h
    all_goals first
      | rfl
      | contradiction
      | simp [Res.value, Res.children, Res.core, matchCounts_mark]


/-- The number-node result. -/
def numLeaf (v : ℚ) : Res :=
  .leaf { ty := "number", value := v, success := none, successes := 0,
          failures := 0, valid := true, order := 0 }

theorem rollType_num (ctx : Ctx) (v : ℚ) (k : ℕ) :
    rollType ctx (AST.num v) k = .ok (numLeaf v, k) := by
  rw [rollType]
  rfl

/-- The fate-die placeholder stored as `die` on fate rolls. -/
def fateLeaf : Res :=
  .leaf { ty := "fate", value := 0, valid := false, success := none,
          successes := 0, failures := 0, order := 0 }

theorem jsLen_zero : jsLen 0 = 0 := by
  rw [jsLen, show ((0:ℚ)) = ((0:ℤ):ℚ) by norm_num,
      show ∀ q : ℚ, q.floor = ⌊q⌋ from fun q => rfl, Int.floor_intCast]
  rfl

/-- The zero-count fate die: no trials, empty pool, value 0. -/
def c4die0 : Res :=
  .dieAgg { ty := "die", value := 0, success := none, successes := 0,
            failures := 0, valid := true, order := 0, matched := false }
    (numLeaf 0) fateLeaf []

theorem c4dieEval :
    rollType (mkCtx []) (AST.die (AST.num 0) none none none none none) 0 =
      .ok (c4die0, 0) := by
  rw [rollType]
  (try dsimp only)
  rw [rollDie, rollType_num]
  simp only [Except.bind.eq_def]
  (try dsimp only)
  rw [if_neg (by decide)]
  (try dsimp only)
  rw [show (numLeaf 0).value = 0 from rfl, jsLen_zero]
  (try simp only [Except.bind.eq_def])
  (try dsimp only)
  rfl

/-- The zero-count fate die with a count-mode match spec: still no trials,
`value` is the count of qualifying groups, zero. -/
def c4die0m : Res :=
  .dieAgg { ty := "die", value := 0, success := none, successes := 0,
            failures := 0, valid := true, order := 0, matched := true }
    (numLeaf 0) fateLeaf []

theorem c4dieMatchEval :
    rollType (mkCtx [])
      (AST.die (AST.num 0) none none none (some (MatchSpec.mk 2 true none)) none) 0 =
      .ok (c4die0m, 0) := by
  rw [rollType]
  (try dsimp only)
  rw [rollDie, rollType_num]
  simp only [Except.bind.eq_def]
  (try dsimp only)
  rw [if_neg (by decide)]
  (try dsimp only)
  rw [show (numLeaf 0).value = 0 from rfl, jsLen_zero]
  (try simp only [Except.bind.eq_def])
  (try dsimp only)
  rfl

/-- The one-member group over the number 3. -/
def c4grp : Res :=
  .agg { ty := "grouproll", value := 3, success := none, successes := 0,
         failures := 0, valid := true, order := 0 }
    [.leaf { ty := "number", value := 3, success := none, successes := 0,
             failures := 0, valid := true, order := 0 }]

theorem c4groupEval :
    rollType (mkCtx []) (AST.group [AST.num 3] none) 0 = .ok (c4grp, 0) := by
  rw [rollType]
  (try dsimp only)
  rw [rollGroup, rollGroupMembers, rollType_num]
  (try dsimp only)
  rw [rollGroupMembers]
  (try dsimp only)
  simp only [Except.bind.eq_def]
  (try dsimp only)
  norm_num [c4grp, validSum, numLeaf, Res.valid, Res.value, Res.core, Res.mapCore]

/-- The math expression `5 - 3`. -/
def c4math : Res :=
  .agg { ty := "expressionroll", value := 2, success := none, successes := 0,
         failures := 0, valid := true, order := 0, ops := ["-"] }
    [numLeaf 5, numLeaf 3]

theorem c4mathEval :
    rollType (mkCtx []) (AST.mathExpr (AST.num 5) [("-", AST.num 3)]) 0 =
      .ok (c4math, 0) := by
  rw [rollType]
  (try dsimp only)
  rw [rollExpression, rollType_num]
  (try dsimp only)
  rw [mathExprFold, rollType_num]
  (try dsimp only)
  rw [mathExprFold]
  (try dsimp only)
  norm_num [c4math, applyMathOp, numLeaf, Res.value, Res.core]
  all_goals decide

/-- The dice expression `2 + 3` (both sides numbers). -/
def c4dice : Res :=
  .agg { ty := "diceexpressionroll", value := 5, success := none, successes := 0,
         failures := 0, valid := true, order := 0, ops := ["+"] }
    [numLeaf 2,
     .leaf { ty := "number", value := 3, success := none, successes := 0,
             failures := 0, valid := true, order := 0 }]

theorem c4diceEval :
    rollType (mkCtx []) (AST.diceExpr (AST.num 2) [("+", AST.num 3)]) 0 =
      .ok (c4dice, 0) := by
  rw [rollType]
  (try dsimp only)
  rw [rollDiceExpr, rollType_num]
  (try dsimp only)
  rw [diceExprFold, rollType_num]
  (try dsimp only)
  rw [if_pos (rfl : ("+" : String) = "+")]
  rw [diceExprFold]
  (try dsimp only)
  norm_num [c4dice, numLeaf, Res.value, Res.core, Res.mapCore]

/-- Counterexample for C4: the math expression `5 - 3` is an aggregate with
no success/failure target and no match-count override, yet its value 2 is
not the sum (8) of its valid children. -/
theorem c4_counterexample :
    rollType (mkCtx []) (AST.mathExpr (AST.num 5) [("-", AST.num 3)]) 0 =
      .ok (c4math, 0) ∧
    c4math.core.success = none ∧ c4math.core.matched = false ∧
    c4math.value = 2 ∧ validSum c4math.children = 8 ∧
    c4math.value ≠ validSum c4math.children := by
  have hvs : validSum c4math.children = 8 := by
    norm_num [c4math, validSum, numLeaf, Res.children, Res.valid, Res.value, Res.core]
  refine ⟨c4mathEval, rfl, rfl, rfl, hvs, ?_⟩
  rw [show c4math.value = 2 from rfl, hvs]
  norm_num

/-- Witness for C4: each amended conjunct at a concrete input — the
zero-trial fate die, the one-member group, the `5 - 3` math expression,
the all-plus dice expression `2 + 3`, and the zero-trial die with a
match-count spec. -/
theorem c4_aggregate_value_amended_witness :
    (∃ r, rollType (mkCtx []) (AST.die (AST.num 0) none none none none none) 0
        = .ok (r, 0) ∧ r.value = validSum r.children) ∧
    (∃ r, rollType (mkCtx []) (AST.group [AST.num 3] none) 0 = .ok (r, 0) ∧
       r.value = validSum r.children) ∧
    (∃ r, rollType (mkCtx []) (AST.mathExpr (AST.num 5) [("-", AST.num 3)]) 0
        = .ok (r, 0) ∧ ∃ hr tl, r.children = hr :: tl ∧
          r.value = (r.core.ops.zip (tl.map Res.value)).foldl
            (fun a p => applyMathOp a p.1 p.2) hr.value) ∧
    (∃ r, rollType (mkCtx []) (AST.diceExpr (AST.num 2) [("+", AST.num 3)]) 0
        = .ok (r, 0) ∧ r.value = validSum r.children) ∧
    (∃ r, rollType (mkCtx [])
        (AST.die (AST.num 0) none none none (some (MatchSpec.mk 2 true none)) none) 0
        = .ok (r, 0) ∧
       r.value = (((matchCounts r.children).filter fun p =>
         decide ((2:ℚ) ≤ p.2)).length : ℚ)) := by
  refine ⟨⟨_, c4dieEval, ?_⟩, ⟨_, c4groupEval, ?_⟩, ⟨_, c4mathEval, ?_⟩,
          ⟨_, c4diceEval, ?_⟩, ⟨_, c4dieMatchEval, ?_⟩⟩
  · exact c4_aggregate_value_amended.1 (mkCtx []) (AST.num 0) none none none none
      0 _ 0 c4dieEval
  · exact c4_aggregate_value_amended.2.1 (mkCtx []) [AST.num 3] none 0 _ 0 c4groupEval
  · exact c4_aggregate_value_amended.2.2.1 (mkCtx []) (AST.num 5) [("-", AST.num 3)]
      0 _ 0 c4mathEval
  · exact c4_aggregate_value_amended.2.2.2.1 (mkCtx []) (AST.num 2) [("+", AST.num 3)]
      0 _ 0 (by intro p hp; simp at hp; subst hp; rfl) c4diceEval
  · exact c4_aggregate_value_amended.2.2.2.2 (mkCtx []) (AST.num 0) none none none
      2 0 _ 0 c4dieMatchEval


/-! ## C8: group modifiers on a flattened single member -/

/-- Writing a modded pool back into a die member: the trial array becomes
the pool itself (in the pool's order) and the member value is recomputed as
the sum of the pool's valid entries. -/
def dieMemberWriteBack (c : ResCore) (cnt dr : Res) (pool : List (ℕ × Res)) : Res :=
  .dieAgg { c with order := ((0 : ℕ) : ℤ),
                   value := validSum (pool.map Prod.snd) }
    cnt dr (pool.map Prod.snd)

/-- The group result around a single die member whose flattened pool came
back from the group modifiers as `pool1`. -/
def groupSingleDieRes (c : ResCore) (cnt dr : Res) (hasT : Bool)
    (pool1 : List (ℕ × Res)) : Res :=
  .agg { ty := "grouproll",
         value := validSum
           [dieMemberWriteBack c cnt dr (groupModsFinish hasT pool1).1],
         success := if hasT then
             some (decide (0 < validSum
               [dieMemberWriteBack c cnt dr (groupModsFinish hasT pool1).1]))
           else none,
         successes := (groupModsFinish hasT pool1).2.1,
         failures := (groupModsFinish hasT pool1).2.2,
         valid := true, order := 0 }
    [dieMemberWriteBack c cnt dr (groupModsFinish hasT pool1).1]

/-- **C8.**  A modified group with exactly one member that evaluates to a
die result applies its modifier list to the member's own trial pool — the
pool handed to the group modifiers is exactly the member's (tagged) trial
list, not its aggregate value — and afterwards the member's trial array is
the returned pool with its value recomputed as the sum of the pool's valid
entries (the group node then sums its valid children as usual).  The
flatten, however, is one level deep: for a dice-expression member it
spreads each non-number child's immediate sub-entries (see the
counterexample for the nested behaviour the claim asserts instead). -/
theorem c8_group_flatten_amended :
    (∀ (ctx : Ctx) (t : AST) (ms : List ModT) (k : ℕ) (c : ResCore)
       (cnt dr : Res) (rs : List Res) (k1 : ℕ) (pool1 : List (ℕ × Res)) (k2 : ℕ),
      rollType ctx t k = .ok (.dieAgg c cnt dr rs, k1) →
      c.ty = "die" →
      applyGroupMods ctx ms rs.enum k1 = .ok (pool1, k2) →
      rollType ctx (AST.group [t] (some ms)) k =
        .ok (groupSingleDieRes c cnt dr (ms.any ModT.isTargetMod) pool1, k2)) ∧
    (∀ (c : ResCore) (cnt dr : Res) (pool : List (ℕ × Res)),
      (dieMemberWriteBack c cnt dr pool).value =
        validSum (dieMemberWriteBack c cnt dr pool).children ∧
      (dieMemberWriteBack c cnt dr pool).children = pool.map Prod.snd) := by
  constructor
  · intro ctx t ms k c cnt dr rs k1 pool1 k2 hmem hty happ
    rw [rollType]
    (try dsimp only)
    rw [rollGroup, rollGroupMembers, hmem]
    (try dsimp only)
    rw [rollGroupMembers]
    (try dsimp only)
    simp only [Except.bind.eq_def]
    (try dsimp only)
    rw [if_pos (show ((((Res.dieAgg c cnt dr rs).mapCore
          fun cc => { cc with order := ((0 : ℕ) : ℤ) }).ty = "die")
          || _) = true from by
        simp [Res.ty, Res.core, Res.mapCore, hty])]
    rw [flattenPool, if_pos (show ((Res.dieAgg c cnt dr rs).mapCore
          fun cc => { cc with order := ((0 : ℕ) : ℤ) }).ty = "die" from by
        simp [Res.ty, Res.core, Res.mapCore, hty])]
    (try dsimp only)
    rw [show ((Res.dieAgg c cnt dr rs).mapCore
          fun cc => { cc with order := ((0 : ℕ) : ℤ) }).children = rs from rfl]
    rw [happ]
    (try dsimp only)
    rw [writeBack, if_pos (show ((Res.dieAgg c cnt dr rs).mapCore
          fun cc => { cc with order := ((0 : ℕ) : ℤ) }).ty = "die" from by
        simp [Res.ty, Res.core, Res.mapCore, hty])]
    rfl
  · intro c cnt dr pool
    exact ⟨rfl, rfl⟩


theorem jsLen_one : jsLen 1 = 1 := by
  rw [jsLen, show ((1:ℚ)) = ((1:ℤ):ℚ) by norm_num,
      show ∀ q : ℚ, q.floor = ⌊q⌋ from fun q => rfl, Int.floor_intCast]
  rfl

/-- The d6 trial drawn from the float `13/20`: `0.65·6 = 3.9` rounds to 4,
raw face 5. -/
def c8trial5 : Res :=
  .leaf { ty := "roll", value := 5, roll := 5, die := 6, order := 0 }

theorem c8gen5 : generateDiceRoll 6 (Int.ofNat 0) (13/20) = c8trial5 := by
  have hf : ((22:ℚ)/5).floor = 4 := by
    rw [show ((22:ℚ)/5) = ((22:ℤ):ℚ)/((5:ℕ):ℚ) by norm_num,
        show ∀ q : ℚ, q.floor = ⌊q⌋ from fun q => rfl, Rat.floor_intCast_div_natCast]
    decide
  norm_num [generateDiceRoll, jsRound, hf, c8trial5]

/-- The d4 trial drawn from the float `3/10`: `0.3·4 = 1.2` rounds to 1,
raw face 2. -/
def c8trial2 : Res :=
  .leaf { ty := "roll", value := 2, roll := 2, die := 4, order := 0 }

theorem c8gen2 : generateDiceRoll 4 (Int.ofNat 0) (3/10) = c8trial2 := by
  have hf : ((17:ℚ)/10).floor = 1 := by
    rw [show ((17:ℚ)/10) = ((17:ℤ):ℚ)/((10:ℕ):ℚ) by norm_num,
        show ∀ q : ℚ, q.floor = ⌊q⌋ from fun q => rfl, Rat.floor_intCast_div_natCast]
    decide
  norm_num [generateDiceRoll, jsRound, hf, c8trial2]

def c8src : List ℚ := [13/20, 3/10]

/-- The 1d6 member head: one trial with face 5. -/
def c8d6 : Res :=
  .dieAgg { ty := "die", value := 5, success := none, successes := 0,
            failures := 0, valid := true, order := 0, matched := false }
    (numLeaf 1) (numLeaf 6) [c8trial5]

theorem c8d6Eval :
    rollType (mkCtx c8src)
      (AST.die (AST.num 1) (some (AST.num 6)) none none none none) 0 =
      .ok (c8d6, 1) := by
  rw [rollType]
  (try dsimp only)
  rw [rollDie, rollType_num]
  simp only [Except.bind.eq_def]
  (try dsimp only)
  rw [if_neg (by decide)]
  (try dsimp only)
  rw [rollType_num]
  (try simp only [Except.bind.eq_def])
  (try dsimp only)
  rw [show (numLeaf 1).value = 1 from rfl, jsLen_one,
      show (numLeaf 6).value = 6 from rfl,
      show genStdRolls (mkCtx c8src).rand 6 1 0 =
        [generateDiceRoll 6 (Int.ofNat 0) (13/20)] from by
        rw [genStdRolls, show List.range 1 = [0] from by decide]
        rfl,
      c8gen5]
  (try simp only [Except.bind.eq_def])
  (try dsimp only)
  norm_num [c8d6, validSum, c8trial5, Res.valid, Res.value, Res.core]

/-- The 1d4 die inside the nested dice expression: one trial with face 2,
drawn at cursor 1. -/
def c8d4 : Res :=
  .dieAgg { ty := "die", value := 2, success := none, successes := 0,
            failures := 0, valid := true, order := 0, matched := false }
    (numLeaf 1) (numLeaf 4) [c8trial2]

theorem c8d4Eval :
    rollType (mkCtx c8src)
      (AST.die (AST.num 1) (some (AST.num 4)) none none none none) 1 =
      .ok (c8d4, 2) := by
  rw [rollType]
  (try dsimp only)
  rw [rollDie, rollType_num]
  simp only [Except.bind.eq_def]
  (try dsimp only)
  rw [if_neg (by decide)]
  (try dsimp only)
  rw [rollType_num]
  (try simp only [Except.bind.eq_def])
  (try dsimp only)
  rw [show (numLeaf 1).value = 1 from rfl, jsLen_one,
      show (numLeaf 4).value = 4 from rfl,
      show genStdRolls (mkCtx c8src).rand 4 1 1 =
        [generateDiceRoll 4 (Int.ofNat 0) (3/10)] from by
        rw [genStdRolls, show List.range 1 = [0] from by decide]
        rfl,
      c8gen2]
  (try simp only [Except.bind.eq_def])
  (try dsimp only)
  norm_num [c8d4, validSum, c8trial2, Res.valid, Res.value, Res.core]

/-- The nested number child `2`, renumbered to tail position 0. -/
def c8num2 : Res :=
  .leaf { ty := "number", value := 2, success := none, successes := 0,
          failures := 0, valid := true, order := 0 }

/-- The nested dice expression `1d4 + 2`, value 4. -/
def c8nested : Res :=
  .agg { ty := "diceexpressionroll", value := 4, success := none,
         successes := 0, failures := 0, valid := true, order := 0,
         ops := ["+"] }
    [c8d4, c8num2]

theorem c8nestedEval :
    rollType (mkCtx c8src)
      (AST.diceExpr (AST.die (AST.num 1) (some (AST.num 4)) none none none none)
        [("+", AST.num 2)]) 1 = .ok (c8nested, 2) := by
  rw [rollType]
  (try dsimp only)
  rw [rollDiceExpr, c8d4Eval]
  (try dsimp only)
  rw [diceExprFold, rollType_num]
  (try dsimp only)
  rw [if_pos (rfl : ("+" : String) = "+")]
  rw [diceExprFold]
  (try dsimp only)
  norm_num [c8nested, c8num2, numLeaf, c8d4, Res.value, Res.core, Res.mapCore]

/-- The single group member `1d6 + (1d4 + 2)`, value 9. -/
def c8member : Res :=
  .agg { ty := "diceexpressionroll", value := 9, success := none,
         successes := 0, failures := 0, valid := true, order := 0,
         ops := ["+"] }
    [c8d6, c8nested]

theorem c8memberEval :
    rollType (mkCtx c8src)
      (AST.diceExpr (AST.die (AST.num 1) (some (AST.num 6)) none none none none)
        [("+", AST.diceExpr (AST.die (AST.num 1) (some (AST.num 4)) none none none none)
                [("+", AST.num 2)])]) 0 = .ok (c8member, 2) := by
  rw [rollType]
  (try dsimp only)
  rw [rollDiceExpr, c8d6Eval]
  (try dsimp only)
  rw [diceExprFold, c8nestedEval]
  (try dsimp only)
  rw [if_pos (rfl : ("+" : String) = "+")]
  rw [diceExprFold]
  (try dsimp only)
  norm_num [c8member, c8nested, c8d6, Res.value, Res.core, Res.mapCore]


/-- The d4 result and the nested number leaf after keep-highest-1 dropped
them. -/
def c8d4drop : Res :=
  .dieAgg { ty := "die", value := 2, success := none, successes := 0,
            failures := 0, valid := false, drop := true, order := 0,
            matched := false }
    (numLeaf 1) (numLeaf 4) [c8trial2]

def c8num2drop : Res :=
  .leaf { ty := "number", value := 2, success := none, successes := 0,
          failures := 0, valid := false, drop := true, order := 0 }

/-- The tagged pool after the group's keep-highest-1: value-sorted, the two
low entries (among them the nested plain number) marked dropped. -/
def c8pool1 : List (ℕ × Res) := [(1, c8d4drop), (2, c8num2drop), (0, c8trial5)]

theorem c8keepEval :
    applyGroupMods (mkCtx c8src) [ModT.keep "h" (AST.num 1)]
      [(0, c8trial5), (1, c8d4), (2, c8num2)] 2 = .ok (c8pool1, 2) := by
  have hmod : applyGroupMod (mkCtx c8src) (ModT.keep "h" (AST.num 1))
      [(0, c8trial5), (1, c8d4), (2, c8num2)] 2 = .ok (c8pool1, 2) := by
    rw [applyGroupMod, rollType_num]
    (try dsimp only)
    norm_num [keepCore, jsSort, List.insertionSort, List.orderedInsert, markWalk,
      c8trial5, c8d4, c8num2, c8pool1, c8d4drop, c8num2drop, numLeaf,
      markDropTag, markDropRes, Res.mapCore, Res.valid, Res.value, Res.core,
      List.countP, List.countP.go, min_def, max_def]
  rw [applyGroupMods, hmod]
  (try dsimp only)
  rw [applyGroupMods]

/-- The member after the group modifiers were written back: its nested
dice expression now carries the dropped d4 result and the dropped plain
number, and its value was recomputed as the pool's valid sum, 5. -/
def c8nestedOut : Res :=
  .agg { ty := "diceexpressionroll", value := 4, success := none,
         successes := 0, failures := 0, valid := true, order := 0,
         ops := ["+"] }
    [c8d4drop, c8num2drop]

def c8membOut : Res :=
  .agg { ty := "diceexpressionroll", value := 5, success := none,
         successes := 0, failures := 0, valid := true, order := 0,
         ops := ["+"] }
    [c8d6, c8nestedOut]

/-- The group result: value 5 (the kept trial), one member. -/
def c8res : Res :=
  .agg { ty := "grouproll", value := 5, success := none, successes := 0,
         failures := 0, valid := true, order := 0 }
    [c8membOut]

theorem c8groupEval :
    rollType (mkCtx c8src) (AST.group
      [AST.diceExpr (AST.die (AST.num 1) (some (AST.num 6)) none none none none)
        [("+", AST.diceExpr (AST.die (AST.num 1) (some (AST.num 4)) none none none none)
                [("+", AST.num 2)])]]
      (some [ModT.keep "h" (AST.num 1)])) 0 = .ok (c8res, 2) := by
  rw [rollType]
  (try dsimp only)
  rw [rollGroup, rollGroupMembers, c8memberEval]
  (try dsimp only)
  rw [rollGroupMembers]
  (try dsimp only)
  simp only [Except.bind.eq_def]
  (try dsimp only)
  rw [if_pos (show (((c8member.mapCore
        fun cc => { cc with order := ((0 : ℕ) : ℤ) }).ty = "die")
        || ((c8member.mapCore
        fun cc => { cc with order := ((0 : ℕ) : ℤ) }).ty = "diceexpressionroll"))
        = true from by rfl)]
  rw [show flattenPool (c8member.mapCore
        fun cc => { cc with order := ((0 : ℕ) : ℤ) }) =
      .ok [c8trial5, c8d4, c8num2] from rfl]
  (try dsimp only)
  rw [show ([c8trial5, c8d4, c8num2] : List Res).enum =
      [(0, c8trial5), (1, c8d4), (2, c8num2)] from rfl]
  rw [c8keepEval]
  (try dsimp only)
  rw [show groupModsFinish ([ModT.keep "h" (AST.num 1)].any ModT.isTargetMod)
        c8pool1 = (c8pool1, 0, 0) from rfl]
  (try dsimp only)
  rw [show writeBack (c8member.mapCore
        fun cc => { cc with order := ((0 : ℕ) : ℤ) }) c8pool1 =
      .agg { ty := "diceexpressionroll", value := 9, success := none,
             successes := 0, failures := 0, valid := true,
             order := ((0 : ℕ) : ℤ), ops := ["+"] }
        [c8d6, c8nestedOut] from rfl]
  (try dsimp only)
  norm_num [c8res, c8membOut, c8nestedOut, c8d6, c8d4drop, c8num2drop, c8trial5,
    validSum, List.map, List.foldl, List.any, ModT.isTargetMod,
    Res.valid, Res.value, Res.core, Res.mapCore]

/-- **C8 counterexample.**  The claim says the flattened pool recurses
through nested dice-expression children down to individual die outcomes and
skips plain number children.  On the group `{1d6 + (1d4 + 2)}kh1` (floats
`0.65, 0.3`) the flatten is one level deep: the pool the keep modifier acts
on contains the nested dice expression's immediate children — the whole d4
result and the plain number 2 — and keep-highest-1 marks the plain number
`valid = false, drop = true`, which could never happen to a skipped child. -/
theorem c8_group_flatten_counterexample :
    rollType (mkCtx c8src) (AST.group
      [AST.diceExpr (AST.die (AST.num 1) (some (AST.num 6)) none none none none)
        [("+", AST.diceExpr (AST.die (AST.num 1) (some (AST.num 4)) none none none none)
                [("+", AST.num 2)])]]
      (some [ModT.keep "h" (AST.num 1)])) 0 = .ok (c8res, 2) ∧
    c8res.children = [c8membOut] ∧
    c8membOut.children.getD 1 c8res = c8nestedOut ∧
    c8nestedOut.children.getD 1 c8res = c8num2drop ∧
    c8num2drop.ty = "number" ∧ c8num2drop.valid = false ∧
    c8num2drop.core.drop = true ∧
    c8membOut.value = validSum (c8pool1.map Prod.snd) := by
  refine ⟨c8groupEval, rfl, rfl, rfl, rfl, rfl, rfl, ?_⟩
  norm_num [c8membOut, c8pool1, c8trial5, c8d4drop, c8num2drop, validSum,
    List.map, List.foldl, Res.value, Res.valid, Res.core]


def c8wcore : ResCore :=
  { ty := "die", value := 0, success := none, successes := 0,
    failures := 0, valid := true, order := 0, matched := false }

/-- Witness for C8: the zero-trial fate die inside a keep-highest-1 group —
the group modifiers act on the (empty) trial pool and the member value is
recomputed as the pool's valid sum. -/
theorem c8_group_flatten_amended_witness :
    rollType (mkCtx []) (AST.group [AST.die (AST.num 0) none none none none none]
        (some [ModT.keep "h" (AST.num 1)])) 0 =
      .ok (groupSingleDieRes c8wcore (numLeaf 0) fateLeaf
             ([ModT.keep "h" (AST.num 1)].any ModT.isTargetMod) [], 0) ∧
    (dieMemberWriteBack c8wcore (numLeaf 0) fateLeaf []).value =
      validSum (dieMemberWriteBack c8wcore (numLeaf 0) fateLeaf []).children ∧
    (dieMemberWriteBack c8wcore (numLeaf 0) fateLeaf []).children = [] := by
  have hmod : applyGroupMod (mkCtx []) (ModT.keep "h" (AST.num 1))
      ([] : List (ℕ × Res)) 0 = .ok ([], 0) := by
    rw [applyGroupMod, rollType_num]
    rfl
  have happ : applyGroupMods (mkCtx []) [ModT.keep "h" (AST.num 1)]
      (([] : List Res).enum) 0 = .ok ([], 0) := by
    rw [show (([] : List Res).enum) = ([] : List (ℕ × Res)) from rfl,
        applyGroupMods, hmod]
    (try dsimp only)
    rw [applyGroupMods]
  refine ⟨?_, ?_, ?_⟩
  · exact c8_group_flatten_amended.1 (mkCtx [])
      (AST.die (AST.num 0) none none none none none) [ModT.keep "h" (AST.num 1)]
      0 c8wcore (numLeaf 0) fateLeaf [] 0 [] 0
      (by rw [c4dieEval]; rfl) rfl happ
  · exact (c8_group_flatten_amended.2 c8wcore (numLeaf 0) fateLeaf []).1
  · exact (c8_group_flatten_amended.2 c8wcore (numLeaf 0) fateLeaf []).2

end DiceRoller
